import Mathlib

/-!
# Verification of the OpenCV DNN fully-connected layer

Shallow embedding of `modules/dnn/src/layers/fully_connected_layer.cpp`
(class `FullyConnectedLayerImpl` and its inner worker `FullConnected`),
with the float arithmetic of the source modelled exactly by rational
numbers.  Line numbers in the doc comments refer to that file.
-/

/-- Modelled from the spec: `cv::alignSize(sz, n)` (OpenCV core utility, not
in this source file) rounds `sz` up to the next multiple of the alignment
boundary `n`. -/
def alignSize (sz n : Nat) : Nat := ((sz + n - 1) / n) * n

/-- The `CV_32F` element-type tag. -/
def CV32F : Nat := 5

/-- A 2-D `cv::Mat` of floats, modelled exactly: `rows`/`cols` are the
logical shape, `step` is the row stride in elements (`Mat::step1()`), `typ`
the element-type tag, and `data` holds one list per row, each of physical
length `step` (columns `[cols, step)` are the padding area of a
non-continuous view such as the aligned weight matrix). -/
structure MatQ where
  rows : Nat
  cols : Nat
  step : Nat
  typ : Nat
  data : List (List ℚ)
deriving DecidableEq

/-- `Mat::total()` of a 2-D matrix. -/
def MatQ.total (m : MatQ) : Nat := m.rows * m.cols

/-- Element read `m.ptr(i)[j]`. -/
def MatQ.cell (m : MatQ) (i j : Nat) : ℚ := (m.data.getD i []).getD j 0

/-- Element write `m.ptr(i)[j] = v`. -/
def MatQ.setCell (m : MatQ) (i j : Nat) (v : ℚ) : MatQ :=
  { m with data := m.data.set i ((m.data.getD i []).set j v) }

/-- Length of the storage of row `i`. -/
def MatQ.rowLen (m : MatQ) (i : Nat) : Nat := (m.data.getD i []).length

/-- The scalar fallback inner loop of `FullConnected::operator()`
(lines 185–195): left-to-right accumulation `s0 += sptr[k] * wptr[k]` over
`k < vecsize`, starting from the bias value. -/
def scalarDot (sptr wptr : List ℚ) (vecsize : Nat) (s0 : ℚ) : ℚ :=
  (List.range vecsize).foldl (fun s k => s + sptr.getD k 0 * wptr.getD k 0) s0

/-- One run of output cells for one sample row (the `for( ; i < nw; i++ )`
loop, lines 185–195): writes `dst[sampleIdx][delta+i]` for `i < nw`, where
the weight pointer advances one row stride per output and the bias pointer
is offset by `delta`. -/
def writeRun (src weights : MatQ) (biasRow : List ℚ) (dst : MatQ)
    (sampleIdx delta nw : Nat) : MatQ :=
  (List.range nw).foldl
    (fun d i =>
      d.setCell sampleIdx (delta + i)
        (scalarDot (src.data.getD sampleIdx []) (weights.data.getD (delta + i) [])
          src.cols (biasRow.getD (delta + i) 0)))
    dst

/-- `delta = ofs - sampleIdx*nw0` with `sampleIdx = ofs / nw0` (lines
148–149): the output-column offset of the flattened index `ofs`. -/
def runDelta (nw0 ofs : Nat) : Nat := ofs - ofs / nw0 * nw0

/-- `nw = min(nw0 - delta, stripeEnd - ofs)` (line 154): the length of the
contiguous run of output cells processed in one iteration. -/
def runNw (nw0 ofs hi : Nat) : Nat := min (nw0 - runDelta nw0 ofs) (hi - ofs)

/-- The stripe loop of `FullConnected::operator()` (lines 146–198): starting
at flattened offset `ofs` over the `(sample, output)` index space, process
runs of cells until `hi`.  `fuel` bounds the iteration count; every
iteration advances `ofs` by `nw ≥ 1` whenever `0 < weights.rows`, and in the
program `hi ≤ nsamples * weights.rows`, so the loop is never entered when
`weights.rows = 0`. -/
def runFromAux (src weights : MatQ) (biasRow : List ℚ) :
    Nat → MatQ → Nat → Nat → MatQ
  | 0, dst, _, _ => dst
  | fuel + 1, dst, ofs, hi =>
    if ofs < hi then
      runFromAux src weights biasRow fuel
        (writeRun src weights biasRow dst (ofs / weights.rows)
          (runDelta weights.rows ofs) (runNw weights.rows ofs hi))
        (ofs + runNw weights.rows ofs hi) hi
    else dst

/-- The stripe loop with its fuel instantiated: at most `hi - ofs`
iterations occur. -/
def runFrom (src weights : MatQ) (biasRow : List ℚ) (dst : MatQ)
    (ofs hi : Nat) : MatQ :=
  runFromAux src weights biasRow (hi - ofs) dst ofs hi

/-- `stripeSize = (total + nstripes - 1)/nstripes` (line 141). -/
def stripeSize (total nstripes : Nat) : Nat := (total + nstripes - 1) / nstripes

/-- `stripeStart = r.start*stripeSize` (line 142), for the per-worker range
`r = [s, s+1)`. -/
def stripeStart (total nstripes s : Nat) : Nat := s * stripeSize total nstripes

/-- `stripeEnd = r.end == nstripes ? total : min(r.end*stripeSize, total)`
(line 143), for the per-worker range `r = [s, s+1)`. -/
def stripeEnd (total nstripes s : Nat) : Nat :=
  if s + 1 = nstripes then total else min ((s + 1) * stripeSize total nstripes) total

/-- `FullConnected::operator()` on the worker range `[s, s+1)`:
`total = nsamples * nw0` (line 140). -/
def fcStripe (src weights : MatQ) (biasRow : List ℚ) (dst : MatQ)
    (nstripes s : Nat) : MatQ :=
  let total := src.rows * weights.rows
  runFrom src weights biasRow dst (stripeStart total nstripes s)
    (stripeEnd total nstripes s)

/-- `parallel_for_(Range(0, nstripes), fconn, nstripes)` (line 219): the
body runs once per worker range `[s, s+1)`; the stripes write pairwise
disjoint cells, so the fork-join execution is modelled as the in-order
composition of the stripes. -/
def fcRun (src weights : MatQ) (biasRow : List ℚ) (dst : MatQ)
    (nstripes : Nat) : MatQ :=
  (List.range nstripes).foldl (fun d s => fcStripe src weights biasRow d nstripes s) dst

/-- The `CV_Assert` of the `FullConnected` constructor (lines 119–124).
`srcMat.dims == 2` and `biasMat.isContinuous()` hold by construction of
the matrices the layer passes in. -/
def fcCheck (srcMat weights biasMat dstMat : MatQ) : Bool :=
  srcMat.cols == weights.cols &&
  dstMat.rows == srcMat.rows && dstMat.cols == weights.rows &&
  srcMat.typ == weights.typ && weights.typ == dstMat.typ && srcMat.typ == CV32F &&
  (biasMat.total == 0 || (biasMat.typ == srcMat.typ && biasMat.total == dstMat.cols))

/-- An n-dimensional dense tensor (a `cv::Mat` of arbitrary dims): shape
metadata, element-type tag, and row-major flat data. -/
structure TensorQ where
  shape : List Nat
  typ : Nat
  data : List ℚ
deriving DecidableEq

/-- `Mat::total()`: the product of the dimensions. -/
def TensorQ.total (t : TensorQ) : Nat := t.shape.prod

/-- The data buffer actually holds one element per index. -/
def TensorQ.wf (t : TensorQ) : Prop := t.data.length = t.shape.prod

/-- Split a flat buffer into `rows` rows of `cols` elements each. -/
def chunkRows (rows cols : Nat) (data : List ℚ) : List (List ℚ) :=
  (List.range rows).map fun i => (data.drop (i * cols)).take cols

/-- Modelled from the spec: `Mat::reshape(1, newRows)` (OpenCV core, not in
this source file) reinterprets the contiguous buffer as a 2-D matrix with
`newRows` rows without copying.  When `newRows` equals the current row
count (`size[0]` of a 2-D matrix) the header is returned unchanged; when it
differs, a 2-D matrix fails with `StsOutOfRange` ("Bad new number of rows")
if `newRows` exceeds the element count, and with `StsBadArg` if the element
count is not divisible by `newRows`; a matrix with more than two dims is
rerouted through the n-dimensional reshape, which only requires
`newRows * (total/newRows)` to equal the element count.  The `newRows == 0`
"keep the current row count" convenience is never reached by this layer
with a positive `num_output` and is folded into `none`. -/
def TensorQ.reshape2D (t : TensorQ) (newRows : Nat) : Option MatQ :=
  if 0 < newRows ∧ t.total % newRows = 0 ∧
      (t.shape.headD 0 = newRows ∨ newRows ≤ t.total ∨ 2 < t.shape.length) then
    some ⟨newRows, t.total / newRows, t.total / newRows, t.typ,
      chunkRows newRows (t.total / newRows) t.data⟩
  else none

/-- A failed `CV_Assert` / `cv::error` (the spec groups these into shape and
type errors; the source raises them all through the same mechanism). -/
inductive FCErr where
  | assert : FCErr
deriving DecidableEq

/-- The layer state after the `FullyConnectedLayerImpl` constructor.
`blobs[0]` has been reassigned to `weightsMat` (lines 71/81) and `blobs[1]`
to `biasMat` when the bias term is enabled (line 85). -/
structure FCLayer where
  numOutput : Nat
  bias : Bool
  axis : Nat
  weightsMat : MatQ
  biasMat : MatQ
deriving DecidableEq

/-- Lines 72–82: when the inner size is not a multiple of `VEC_ALIGN = 8`,
allocate a buffer whose row stride is `alignSize(vecsize, 8)`, zero the
padding columns, and copy the original rows in; `weightsMat` stays the
logical `colRange(0, vecsize)` view of that buffer.  Otherwise the reshaped
matrix is used directly. -/
def padWeights (w0 : MatQ) : MatQ :=
  if w0.cols % 8 ≠ 0 then
    { w0 with step := alignSize w0.cols 8,
              data := w0.data.map fun r => r ++ List.replicate (alignSize w0.cols 8 - w0.cols) 0 }
  else w0

/-- `Mat::zeros(1, n, type)` (line 87). -/
def zerosRow (n typ : Nat) : MatQ := ⟨1, n, n, typ, [List.replicate n 0]⟩

/-- The default tensor used for an out-of-range `getD` read of a blob list
(never type-correct, so such a configuration can only fail the asserts). -/
def emptyTensor : TensorQ := ⟨[], 0, []⟩

/-- `FullyConnectedLayerImpl::FullyConnectedLayerImpl` (lines 58–88):
validate the blob shapes, reshape the weights to `numOutput` rows, pad each
row to the `VEC_ALIGN = 8` boundary with zeros when the inner size is not
already a multiple of 8, and build the flat bias vector (zero-filled when
the bias term is disabled).  `numOutput` is the (positive) `num_output`
parameter; the C++ division `total()/numOutput` is undefined otherwise. -/
def fcConstruct (blobs : List TensorQ) (numOutput : Nat) (biasTerm : Bool)
    (axis : Nat) : Except FCErr FCLayer :=
  -- the source locals: `blob0 = blobs[0]`, `innerSize = blob0.total()/numOutput`
  if 1 ≤ blobs.length ∧ blobs.length ≤ 2 then
    if 2 ≤ (blobs.getD 0 emptyTensor).shape.length ∧
        ((blobs.getD 0 emptyTensor).total / numOutput) * numOutput =
          (blobs.getD 0 emptyTensor).total then
      if !biasTerm || (blobs.length = 2 ∧ (blobs.getD 1 emptyTensor).total = numOutput) then
        match (blobs.getD 0 emptyTensor).reshape2D numOutput with
        | none => .error .assert
        | some w0 =>
          .ok ⟨numOutput, biasTerm, axis, padWeights w0,
            -- `blobs[1].reshape(1, 1)`: with the bias assert above and a
            -- positive `num_output` the blob is nonempty, so this succeeds
            if biasTerm then ((blobs.getD 1 emptyTensor).reshape2D 1).getD ⟨1, 0, 0, 0, []⟩
            else zerosRow numOutput (padWeights w0).typ⟩
      else .error .assert
    else .error .assert
  else .error .assert

/-- Modelled from the spec: `total(shape, 0, cAxis)` with
`cAxis = clamp(axis, dims)` (from `shape_utils.hpp`, not in this source
file) — "`outerSize` is the product of dimensions up to a configured axis".
`axis` is taken already canonical (`0 ≤ axis < dims`). -/
def outerSizeOf (shape : List Nat) (axis : Nat) : Nat := (shape.take axis).prod

/-- One iteration of the `forward` loop body (lines 212–219) for input
`inp` and caller-allocated output buffer `out`: reshape both to `outerSize`
rows, validate through the `FullConnected` constructor asserts, then run
all stripes and store the result through the reshaped view into the output
buffer (whose own metadata is unchanged). -/
def forwardStep (weightsMat biasMat : MatQ) (nstripes outerSize : Nat)
    (inp out : TensorQ) : Except FCErr TensorQ :=
  match inp.reshape2D outerSize, out.reshape2D outerSize with
  | some srcMat, some dstMat =>
    if fcCheck srcMat weightsMat biasMat dstMat then
      let res := fcRun srcMat weightsMat (biasMat.data.getD 0 []) dstMat nstripes
      .ok { out with data := res.data.flatten }
    else .error .assert
  | _, _ => .error .assert

/-- The `forward` loop over the batch (lines 212–220), in order.  An error
aborts the loop; the returned error state carries the output buffers as
they stand at that point: buffers of already-processed batch entries keep
their computed contents, the failing and all later buffers are untouched. -/
def forwardFrom (weightsMat biasMat : MatQ) (nstripes outerSize : Nat) :
    List TensorQ → List TensorQ → Except (FCErr × List TensorQ) (List TensorQ)
  | [], outs => .ok outs
  | _ :: _, [] => .error (.assert, [])
  | inp :: ins, out :: outs =>
    match forwardStep weightsMat biasMat nstripes outerSize inp out with
    | .error e => .error (e, out :: outs)
    | .ok out' =>
      match forwardFrom weightsMat biasMat nstripes outerSize ins outs with
      | .error (e, rest) => .error (e, out' :: rest)
      | .ok rest => .ok (out' :: rest)

/-- `FullyConnectedLayerImpl::forward` (lines 207–221): the batch row count
`outerSize` is computed from `input[0]` alone (lines 209–210) and applied
to every matrix in the batch; `nstripes` models `getNumThreads()`. -/
def forward (L : FCLayer) (nstripes : Nat) (inputs outputs : List TensorQ) :
    Except (FCErr × List TensorQ) (List TensorQ) :=
  let outerSize := outerSizeOf (inputs.getD 0 emptyTensor).shape L.axis
  forwardFrom L.weightsMat L.biasMat nstripes outerSize inputs outputs

/-- `FullyConnectedLayerImpl::getMemoryShapes` (lines 90–106): every output
gets the shape `[outerSize(inputs[0]), numOutput]`
(`outputs.resize(inputs.size(), shape(outerSize, numOutput))`), where
`numOutput = blobs[0].size[0] = weightsMat.rows`. -/
def getMemoryShapes (L : FCLayer) (inputs : List (List Nat)) :
    Except FCErr (List (List Nat)) :=
  -- source locals: `outerSize = total(inputs[0], 0, cAxis)`, `numOutput = blobs[0].size[0]`
  if 0 < inputs.length then
    if !L.bias || L.biasMat.total = L.weightsMat.rows then
      .ok (List.replicate inputs.length
        [outerSizeOf (inputs.getD 0 []) L.axis, L.weightsMat.rows])
    else .error .assert
  else .error .assert

/-- `FullyConnectedLayerImpl::getFLOPS` (lines 272–286):
`innerSize = blobs[0].size[1]` is the logical column count of `weightsMat`
(to which `blobs[0]` was reassigned by the constructor), and
`total(outputs[i])` is the element count of the output shape. -/
def getFLOPS (L : FCLayer) (outputs : List (List Nat)) : Nat :=
  outputs.foldl (fun flops s => flops + 3 * L.weightsMat.cols * s.prod) 0

/-- A 4-lane `v_float32x4` over exact arithmetic. -/
structure V4 where
  e0 : ℚ
  e1 : ℚ
  e2 : ℚ
  e3 : ℚ
deriving DecidableEq

/-- Lane-wise `+`. -/
def V4.add (a b : V4) : V4 := ⟨a.e0 + b.e0, a.e1 + b.e1, a.e2 + b.e2, a.e3 + b.e3⟩

/-- Lane-wise `*`. -/
def V4.mul (a b : V4) : V4 := ⟨a.e0 * b.e0, a.e1 * b.e1, a.e2 * b.e2, a.e3 * b.e3⟩

/-- `v_setall_f32(0.f)`. -/
def V4.zero : V4 := ⟨0, 0, 0, 0⟩

/-- `v_load(p + k)` / `v_load_aligned(p + k)`: memory is a total function,
so the loads past the end of the logical row that the 4-wide kernel
performs when `vecsize % 4 ≠ 0` read arbitrary values. -/
def v4load (p : Nat → ℚ) (k : Nat) : V4 := ⟨p k, p (k + 1), p (k + 2), p (k + 3)⟩

/-- `v_reduce_sum4`: the horizontal sums of the four accumulators. -/
def v4reduceSum4 (a b c d : V4) : V4 :=
  ⟨a.e0 + a.e1 + a.e2 + a.e3, b.e0 + b.e1 + b.e2 + b.e3,
   c.e0 + c.e1 + c.e2 + c.e3, d.e0 + d.e1 + d.e2 + d.e3⟩

/-- The accumulator loop `for( k = 0; k < vecsize; k += 4 )`
(lines 170–177): one shared input load per chunk, four weight rows at the
strides `0, wstep, 2*wstep, 3*wstep` modelled as the four row functions;
the loop body executes `⌈vecsize/4⌉` times. -/
def fourRowLoop (s w0 w1 w2 w3 : Nat → ℚ) (vecsize : Nat) : V4 × V4 × V4 × V4 :=
  (List.range ((vecsize + 3) / 4)).foldl
    (fun vs t =>
      let v := v4load s (4 * t)
      (vs.1.add (v.mul (v4load w0 (4 * t))),
       vs.2.1.add (v.mul (v4load w1 (4 * t))),
       vs.2.2.1.add (v.mul (v4load w2 (4 * t))),
       vs.2.2.2.add (v.mul (v4load w3 (4 * t)))))
    (V4.zero, V4.zero, V4.zero, V4.zero)

/-- The full 4-wide vectorized block (lines 165–182): accumulate, reduce
the four partial sums horizontally, and add the four bias values in one
vector operation. -/
def fourRowBlock (s w0 w1 w2 w3 : Nat → ℚ) (bias : V4) (vecsize : Nat) : V4 :=
  let vs := fourRowLoop s w0 w1 w2 w3 vecsize
  (v4reduceSum4 vs.1 vs.2.1 vs.2.2.1 vs.2.2.2).add bias

/-- The scalar fallback path (lines 185–195) on the same memory-as-function
view used by the vector path. -/
def scalarDotF (s w : Nat → ℚ) (vecsize : Nat) (s0 : ℚ) : ℚ :=
  (List.range vecsize).foldl (fun acc k => acc + s k * w k) s0

/-- The value the scalar kernel stores at output cell `(i, j)`. -/
def cellVal (src weights : MatQ) (biasRow : List ℚ) (i j : Nat) : ℚ :=
  scalarDot (src.data.getD i []) (weights.data.getD j []) src.cols (biasRow.getD j 0)

/-! ## Basic list and cell lemmas -/

theorem getD_set {α : Type} (l : List α) (i j : Nat) (a d : α) :
    (l.set i a).getD j d = if i = j ∧ i < l.length then a else l.getD j d := by
  rcases Nat.lt_or_ge j l.length with hj | hj
  · rw [List.getD_eq_getElem _ _ (by simpa using hj)]
    rw [List.getElem_set]
    split_ifs with h1 h2 h3
    · rfl
    · exact absurd ⟨h1, h1 ▸ hj⟩ h2
    · exact absurd h3.1 h1
    · exact (List.getD_eq_getElem _ _ hj).symm
  · rw [List.getD_eq_default _ _ (by simpa using hj), List.getD_eq_default _ _ hj]
    have h : ¬(i = j ∧ i < l.length) := by rintro ⟨rfl, h⟩; omega
    rw [if_neg h]

theorem setCell_rows (m : MatQ) (i j : Nat) (v : ℚ) : (m.setCell i j v).rows = m.rows := rfl

theorem setCell_cols (m : MatQ) (i j : Nat) (v : ℚ) : (m.setCell i j v).cols = m.cols := rfl

theorem setCell_step (m : MatQ) (i j : Nat) (v : ℚ) : (m.setCell i j v).step = m.step := rfl

theorem setCell_typ (m : MatQ) (i j : Nat) (v : ℚ) : (m.setCell i j v).typ = m.typ := rfl

theorem setCell_dataLength (m : MatQ) (i j : Nat) (v : ℚ) :
    (m.setCell i j v).data.length = m.data.length := by
  simp [MatQ.setCell]

theorem setCell_rowLen (m : MatQ) (i j : Nat) (v : ℚ) (idx : Nat) :
    (m.setCell i j v).rowLen idx = m.rowLen idx := by
  unfold MatQ.rowLen MatQ.setCell
  simp only
  rw [getD_set]
  split_ifs with h
  · rw [List.length_set, h.1]
  · rfl

theorem cell_setCell (m : MatQ) (i j : Nat) (v : ℚ) (i' j' : Nat)
    (hi : i < m.data.length) (hj : j < m.rowLen i) :
    (m.setCell i j v).cell i' j' = if i = i' ∧ j = j' then v else m.cell i' j' := by
  unfold MatQ.cell MatQ.setCell
  simp only
  rw [getD_set]
  rcases eq_or_ne i i' with rfl | hne
  · rw [if_pos ⟨rfl, hi⟩, getD_set]
    rcases eq_or_ne j j' with rfl | hjne
    · rw [if_pos ⟨rfl, hj⟩, if_pos ⟨rfl, rfl⟩]
    · rw [if_neg (by rintro ⟨rfl, -⟩; exact hjne rfl),
        if_neg (by rintro ⟨-, rfl⟩; exact hjne rfl)]
  · rw [if_neg (by rintro ⟨rfl, -⟩; exact hne rfl),
      if_neg (by rintro ⟨rfl, -⟩; exact hne rfl)]

theorem scalarDot_eq_sum (sp wp : List ℚ) (n : Nat) (s0 : ℚ) :
    scalarDot sp wp n s0 = s0 + ∑ k ∈ Finset.range n, sp.getD k 0 * wp.getD k 0 := by
  induction n with
  | zero => simp [scalarDot]
  | succ n ih =>
    unfold scalarDot at ih ⊢
    rw [List.range_succ, List.foldl_append, ih, Finset.sum_range_succ]
    simp [add_assoc]

/-! ## The scalar run: cell-level characterization -/

theorem writeRun_succ (src w : MatQ) (b : List ℚ) (dst : MatQ) (si delta nw : Nat) :
    writeRun src w b dst si delta (nw + 1) =
      (writeRun src w b dst si delta nw).setCell si (delta + nw)
        (cellVal src w b si (delta + nw)) := by
  unfold writeRun cellVal
  rw [List.range_succ, List.foldl_append]
  rfl

theorem writeRun_zero (src w : MatQ) (b : List ℚ) (dst : MatQ) (si delta : Nat) :
    writeRun src w b dst si delta 0 = dst := rfl

theorem writeRun_rows (src w : MatQ) (b : List ℚ) (dst : MatQ) (si delta nw : Nat) :
    (writeRun src w b dst si delta nw).rows = dst.rows := by
  induction nw with
  | zero => rfl
  | succ n ih => rw [writeRun_succ, setCell_rows, ih]

theorem writeRun_cols (src w : MatQ) (b : List ℚ) (dst : MatQ) (si delta nw : Nat) :
    (writeRun src w b dst si delta nw).cols = dst.cols := by
  induction nw with
  | zero => rfl
  | succ n ih => rw [writeRun_succ, setCell_cols, ih]

theorem writeRun_step (src w : MatQ) (b : List ℚ) (dst : MatQ) (si delta nw : Nat) :
    (writeRun src w b dst si delta nw).step = dst.step := by
  induction nw with
  | zero => rfl
  | succ n ih => rw [writeRun_succ, setCell_step, ih]

theorem writeRun_typ (src w : MatQ) (b : List ℚ) (dst : MatQ) (si delta nw : Nat) :
    (writeRun src w b dst si delta nw).typ = dst.typ := by
  induction nw with
  | zero => rfl
  | succ n ih => rw [writeRun_succ, setCell_typ, ih]

theorem writeRun_dataLength (src w : MatQ) (b : List ℚ) (dst : MatQ) (si delta nw : Nat) :
    (writeRun src w b dst si delta nw).data.length = dst.data.length := by
  induction nw with
  | zero => rfl
  | succ n ih => rw [writeRun_succ, setCell_dataLength, ih]

theorem writeRun_rowLen (src w : MatQ) (b : List ℚ) (dst : MatQ) (si delta nw idx : Nat) :
    (writeRun src w b dst si delta nw).rowLen idx = dst.rowLen idx := by
  induction nw with
  | zero => rfl
  | succ n ih => rw [writeRun_succ, setCell_rowLen, ih]

theorem writeRun_cell (src w : MatQ) (b : List ℚ) (dst : MatQ) (si delta nw : Nat)
    (hsi : si < dst.data.length) (hrow : delta + nw ≤ dst.rowLen si) (i j : Nat) :
    (writeRun src w b dst si delta nw).cell i j =
      if si = i ∧ delta ≤ j ∧ j < delta + nw then cellVal src w b si j
      else dst.cell i j := by
  induction nw with
  | zero =>
    rw [writeRun_zero, if_neg]
    rintro ⟨-, h1, h2⟩; omega
  | succ n ih =>
    rw [writeRun_succ,
      cell_setCell _ _ _ _ _ _ (by rw [writeRun_dataLength]; exact hsi)
        (by rw [writeRun_rowLen]; omega),
      ih (by omega)]
    by_cases h1 : si = i ∧ delta + n = j
    · rw [if_pos h1, if_pos ⟨h1.1, by omega, by omega⟩, h1.2]
    · rw [if_neg h1]
      by_cases h2 : si = i ∧ delta ≤ j ∧ j < delta + n
      · rw [if_pos h2, if_pos ⟨h2.1, h2.2.1, by omega⟩]
      · rw [if_neg h2, if_neg]
        rintro ⟨ha, hb, hc⟩
        rcases Nat.lt_or_ge j (delta + n) with hlt | hge
        · exact h2 ⟨ha, hb, hlt⟩
        · exact h1 ⟨ha, by omega⟩

theorem runDelta_eq_mod (nw0 ofs : Nat) : runDelta nw0 ofs = ofs % nw0 := by
  rw [runDelta, Nat.mod_def, Nat.mul_comm]

theorem runFromAux_zero (src w : MatQ) (b : List ℚ) (dst : MatQ) (ofs hi : Nat) :
    runFromAux src w b 0 dst ofs hi = dst := rfl

theorem runFromAux_succ (src w : MatQ) (b : List ℚ) (fuel : Nat) (dst : MatQ)
    (ofs hi : Nat) :
    runFromAux src w b (fuel + 1) dst ofs hi =
      if ofs < hi then
        runFromAux src w b fuel
          (writeRun src w b dst (ofs / w.rows) (runDelta w.rows ofs) (runNw w.rows ofs hi))
          (ofs + runNw w.rows ofs hi) hi
      else dst := rfl

theorem runFromAux_dataLength (src w : MatQ) (b : List ℚ) (fuel : Nat) :
    ∀ (dst : MatQ) (ofs hi : Nat),
      (runFromAux src w b fuel dst ofs hi).data.length = dst.data.length := by
  induction fuel with
  | zero => intro dst ofs hi; rfl
  | succ n ih =>
    intro dst ofs hi
    rw [runFromAux_succ]
    split_ifs with h
    · rw [ih, writeRun_dataLength]
    · rfl

theorem runFromAux_rowLen (src w : MatQ) (b : List ℚ) (fuel : Nat) :
    ∀ (dst : MatQ) (ofs hi idx : Nat),
      (runFromAux src w b fuel dst ofs hi).rowLen idx = dst.rowLen idx := by
  induction fuel with
  | zero => intro dst ofs hi idx; rfl
  | succ n ih =>
    intro dst ofs hi idx
    rw [runFromAux_succ]
    split_ifs with h
    · rw [ih, writeRun_rowLen]
    · rfl

theorem runFromAux_rows (src w : MatQ) (b : List ℚ) (fuel : Nat) :
    ∀ (dst : MatQ) (ofs hi : Nat), (runFromAux src w b fuel dst ofs hi).rows = dst.rows := by
  induction fuel with
  | zero => intro dst ofs hi; rfl
  | succ n ih =>
    intro dst ofs hi
    rw [runFromAux_succ]
    split_ifs with h
    · rw [ih, writeRun_rows]
    · rfl

theorem runFromAux_cols (src w : MatQ) (b : List ℚ) (fuel : Nat) :
    ∀ (dst : MatQ) (ofs hi : Nat), (runFromAux src w b fuel dst ofs hi).cols = dst.cols := by
  induction fuel with
  | zero => intro dst ofs hi; rfl
  | succ n ih =>
    intro dst ofs hi
    rw [runFromAux_succ]
    split_ifs with h
    · rw [ih, writeRun_cols]
    · rfl

theorem runFromAux_step (src w : MatQ) (b : List ℚ) (fuel : Nat) :
    ∀ (dst : MatQ) (ofs hi : Nat), (runFromAux src w b fuel dst ofs hi).step = dst.step := by
  induction fuel with
  | zero => intro dst ofs hi; rfl
  | succ n ih =>
    intro dst ofs hi
    rw [runFromAux_succ]
    split_ifs with h
    · rw [ih, writeRun_step]
    · rfl

theorem runFromAux_typ (src w : MatQ) (b : List ℚ) (fuel : Nat) :
    ∀ (dst : MatQ) (ofs hi : Nat), (runFromAux src w b fuel dst ofs hi).typ = dst.typ := by
  induction fuel with
  | zero => intro dst ofs hi; rfl
  | succ n ih =>
    intro dst ofs hi
    rw [runFromAux_succ]
    split_ifs with h
    · rw [ih, writeRun_typ]
    · rfl

/-- Decoding one run: for a column index `j < nw0`, the flattened index
`i*nw0 + j` lies in the run `[ofs, ofs + nw)` exactly when `i` is the run's
sample row and `j` lies in its column window. -/
theorem run_decode (ofs nw0 nw i j : Nat) (h0 : 0 < nw0) (hj : j < nw0)
    (hnw : ofs % nw0 + nw ≤ nw0) :
    (ofs ≤ i * nw0 + j ∧ i * nw0 + j < ofs + nw) ↔
      (ofs / nw0 = i ∧ ofs % nw0 ≤ j ∧ j < ofs % nw0 + nw) := by
  have e1 : nw0 * (ofs / nw0) + ofs % nw0 = ofs := Nat.div_add_mod ofs nw0
  have e2 : nw0 * (ofs / nw0) = ofs / nw0 * nw0 := Nat.mul_comm _ _
  constructor
  · rintro ⟨hlo, hhi⟩
    have h1 : ofs / nw0 * nw0 ≤ i * nw0 + j := le_trans (Nat.div_mul_le_self ofs nw0) hlo
    have h2 : i * nw0 + j < (ofs / nw0 + 1) * nw0 := by
      have h3 : (ofs / nw0 + 1) * nw0 = ofs / nw0 * nw0 + nw0 := by ring
      omega
    have h4 : (i * nw0 + j) / nw0 = ofs / nw0 := Nat.div_eq_of_lt_le h1 h2
    have h5 : (i * nw0 + j) / nw0 = i :=
      Nat.div_eq_of_lt_le (Nat.le_add_right _ _) (by rw [Nat.succ_mul]; omega)
    have h6 : ofs / nw0 = i := by rw [← h4, h5]
    refine ⟨h6, ?_, ?_⟩ <;> (rw [h6] at e1 e2; omega)
  · rintro ⟨h6, hlo, hhi⟩
    rw [h6] at e1 e2
    omega

/-- Cell-level characterization of the stripe loop: with enough fuel, every
flattened index in `[ofs, hi)` receives its computed value and every other
cell is untouched. -/
theorem runFromAux_cell (src w : MatQ) (b : List ℚ) (fuel : Nat) :
    ∀ (dst : MatQ) (ofs hi : Nat),
      hi ≤ dst.data.length * w.rows →
      (∀ idx, idx < dst.data.length → dst.rowLen idx = w.rows) →
      hi - ofs ≤ fuel →
      ∀ i j, i < dst.data.length → j < w.rows →
        (runFromAux src w b fuel dst ofs hi).cell i j =
          if ofs ≤ i * w.rows + j ∧ i * w.rows + j < hi then cellVal src w b i j
          else dst.cell i j := by
  induction fuel with
  | zero =>
    intro dst ofs hi hhi hrow hfuel i j hi' hj
    rw [runFromAux_zero, if_neg (by omega)]
  | succ n ih =>
    intro dst ofs hi hhi hrow hfuel i j hi' hj
    rw [runFromAux_succ]
    by_cases hoh : ofs < hi
    · rw [if_pos hoh]
      have h0 : 0 < w.rows := by
        rcases Nat.eq_zero_or_pos w.rows with h | h
        · rw [h, Nat.mul_zero] at hhi; omega
        · exact h
      have hq : ofs / w.rows < dst.data.length := by
        rw [Nat.div_lt_iff_lt_mul h0]
        omega
      have hmod : ofs % w.rows < w.rows := Nat.mod_lt ofs h0
      have hnw1 : 1 ≤ runNw w.rows ofs hi := by
        rw [runNw, runDelta_eq_mod]; omega
      have hnw2 : ofs % w.rows + runNw w.rows ofs hi ≤ w.rows := by
        rw [runNw, runDelta_eq_mod]; omega
      have hofsnw : ofs + runNw w.rows ofs hi ≤ hi := by
        rw [runNw]; omega
      rw [ih _ _ _ (by rw [writeRun_dataLength]; exact hhi)
        (by intro idx hidx; rw [writeRun_rowLen]; exact hrow idx (by rwa [writeRun_dataLength] at hidx))
        (by omega) i j (by rwa [writeRun_dataLength]) hj]
      rw [writeRun_cell _ _ _ _ _ _ _ hq
        (by rw [runDelta_eq_mod, hrow _ hq]; exact hnw2) i j]
      have hdec := run_decode ofs w.rows (runNw w.rows ofs hi) i j h0 hj hnw2
      rw [runDelta_eq_mod]
      by_cases hc1 : ofs ≤ i * w.rows + j ∧ i * w.rows + j < ofs + runNw w.rows ofs hi
      · obtain ⟨hq1, hq2, hq3⟩ := hdec.mp hc1
        rw [if_neg (by omega), if_pos ⟨hq1, hq2, hq3⟩, hq1,
          if_pos ⟨hc1.1, by omega⟩]
      · rw [if_neg (fun hc => hc1 (hdec.mpr hc))]
        by_cases hc3 : ofs + runNw w.rows ofs hi ≤ i * w.rows + j ∧ i * w.rows + j < hi
        · rw [if_pos hc3, if_pos ⟨by omega, hc3.2⟩]
        · rw [if_neg hc3, if_neg]
          rintro ⟨hcc1, hcc2⟩
          rcases Nat.lt_or_ge (i * w.rows + j) (ofs + runNw w.rows ofs hi) with hx | hx
          · exact hc1 ⟨hcc1, hx⟩
          · exact hc3 ⟨hx, hcc2⟩
    · rw [if_neg hoh, if_neg (by omega)]

/-! ## Stripe partition arithmetic -/

theorem stripeSize_mul_ge (total nstripes : Nat) (h : 1 ≤ nstripes) :
    total ≤ nstripes * stripeSize total nstripes := by
  rw [stripeSize]
  have h1 := Nat.div_add_mod (total + nstripes - 1) nstripes
  have h2 := Nat.mod_lt (total + nstripes - 1) h
  generalize hm : nstripes * ((total + nstripes - 1) / nstripes) = m at h1 ⊢
  omega

theorem stripeEnd_le_total (total nstripes s : Nat) :
    stripeEnd total nstripes s ≤ total := by
  rw [stripeEnd]
  split_ifs
  · exact le_rfl
  · exact min_le_right _ _

theorem stripeSize_pos (total nstripes : Nat) (h : 1 ≤ nstripes) (ht : 0 < total) :
    0 < stripeSize total nstripes := by
  rw [stripeSize]
  exact Nat.div_pos (by omega) (by omega)

theorem stripe_mem_iff (total nstripes s x : Nat) (hn : 1 ≤ nstripes)
    (hs : s < nstripes) (hx : x < total) :
    (stripeStart total nstripes s ≤ x ∧ x < stripeEnd total nstripes s) ↔
      s = x / stripeSize total nstripes := by
  have hssx : 0 < stripeSize total nstripes := stripeSize_pos total nstripes hn (by omega)
  have htot := stripeSize_mul_ge total nstripes hn
  constructor
  · rintro ⟨hlo, hhi⟩
    have hup : x < (s + 1) * stripeSize total nstripes := by
      have h1 : stripeEnd total nstripes s ≤ (s + 1) * stripeSize total nstripes := by
        rw [stripeEnd]
        split_ifs with he
        · rw [he]; exact htot
        · exact min_le_left _ _
      omega
    exact (Nat.div_eq_of_lt_le (by rwa [stripeStart] at hlo) hup).symm
  · rintro rfl
    refine ⟨by rw [stripeStart]; exact Nat.div_mul_le_self x _, ?_⟩
    have hup : x < (x / stripeSize total nstripes + 1) * stripeSize total nstripes := by
      have h1 := Nat.div_add_mod x (stripeSize total nstripes)
      have h2 := Nat.mod_lt x hssx
      have h3 : (x / stripeSize total nstripes + 1) * stripeSize total nstripes =
          stripeSize total nstripes * (x / stripeSize total nstripes) +
            stripeSize total nstripes := by ring
      omega
    rw [stripeEnd]
    split_ifs with he
    · exact hx
    · exact lt_min hup hx

/-! ## Full run characterization -/

theorem fcStripe_dataLength (src w : MatQ) (b : List ℚ) (d : MatQ) (n s : Nat) :
    (fcStripe src w b d n s).data.length = d.data.length := by
  rw [fcStripe, runFrom, runFromAux_dataLength]

theorem fcStripe_rowLen (src w : MatQ) (b : List ℚ) (d : MatQ) (n s idx : Nat) :
    (fcStripe src w b d n s).rowLen idx = d.rowLen idx := by
  rw [fcStripe, runFrom, runFromAux_rowLen]

theorem fcStripe_rows (src w : MatQ) (b : List ℚ) (d : MatQ) (n s : Nat) :
    (fcStripe src w b d n s).rows = d.rows := by
  rw [fcStripe, runFrom, runFromAux_rows]

theorem fcStripe_cols (src w : MatQ) (b : List ℚ) (d : MatQ) (n s : Nat) :
    (fcStripe src w b d n s).cols = d.cols := by
  rw [fcStripe, runFrom, runFromAux_cols]

theorem fcStripe_step (src w : MatQ) (b : List ℚ) (d : MatQ) (n s : Nat) :
    (fcStripe src w b d n s).step = d.step := by
  rw [fcStripe, runFrom, runFromAux_step]

theorem fcStripe_typ (src w : MatQ) (b : List ℚ) (d : MatQ) (n s : Nat) :
    (fcStripe src w b d n s).typ = d.typ := by
  rw [fcStripe, runFrom, runFromAux_typ]

theorem fcRunUpTo_dataLength (src w : MatQ) (b : List ℚ) (dst : MatQ) (n : Nat) :
    ∀ s, ((List.range s).foldl (fun d t => fcStripe src w b d n t) dst).data.length =
      dst.data.length := by
  intro s
  induction s with
  | zero => rfl
  | succ m ih => rw [List.range_succ, List.foldl_append, List.foldl_cons, List.foldl_nil,
      fcStripe_dataLength, ih]

theorem fcRunUpTo_rowLen (src w : MatQ) (b : List ℚ) (dst : MatQ) (n : Nat) :
    ∀ s idx, ((List.range s).foldl (fun d t => fcStripe src w b d n t) dst).rowLen idx =
      dst.rowLen idx := by
  intro s idx
  induction s with
  | zero => rfl
  | succ m ih => rw [List.range_succ, List.foldl_append, List.foldl_cons, List.foldl_nil,
      fcStripe_rowLen, ih]

theorem fcRunUpTo_rows (src w : MatQ) (b : List ℚ) (dst : MatQ) (n : Nat) :
    ∀ s, ((List.range s).foldl (fun d t => fcStripe src w b d n t) dst).rows = dst.rows := by
  intro s
  induction s with
  | zero => rfl
  | succ m ih => rw [List.range_succ, List.foldl_append, List.foldl_cons, List.foldl_nil,
      fcStripe_rows, ih]

theorem fcRunUpTo_cols (src w : MatQ) (b : List ℚ) (dst : MatQ) (n : Nat) :
    ∀ s, ((List.range s).foldl (fun d t => fcStripe src w b d n t) dst).cols = dst.cols := by
  intro s
  induction s with
  | zero => rfl
  | succ m ih => rw [List.range_succ, List.foldl_append, List.foldl_cons, List.foldl_nil,
      fcStripe_cols, ih]

theorem fcRunUpTo_step (src w : MatQ) (b : List ℚ) (dst : MatQ) (n : Nat) :
    ∀ s, ((List.range s).foldl (fun d t => fcStripe src w b d n t) dst).step = dst.step := by
  intro s
  induction s with
  | zero => rfl
  | succ m ih => rw [List.range_succ, List.foldl_append, List.foldl_cons, List.foldl_nil,
      fcStripe_step, ih]

theorem fcRunUpTo_typ (src w : MatQ) (b : List ℚ) (dst : MatQ) (n : Nat) :
    ∀ s, ((List.range s).foldl (fun d t => fcStripe src w b d n t) dst).typ = dst.typ := by
  intro s
  induction s with
  | zero => rfl
  | succ m ih => rw [List.range_succ, List.foldl_append, List.foldl_cons, List.foldl_nil,
      fcStripe_typ, ih]

/-- After the first `s` stripes, exactly the flattened prefix
`[0, min(s*stripeSize, total))` of the output has been written. -/
theorem fcRunUpTo_cell (src w : MatQ) (b : List ℚ) (dst : MatQ) (nstripes : Nat)
    (hn : 1 ≤ nstripes) (hlen : dst.data.length = src.rows)
    (hrow : ∀ idx, idx < dst.data.length → dst.rowLen idx = w.rows) :
    ∀ s i j, s ≤ nstripes → i < src.rows → j < w.rows →
      ((List.range s).foldl (fun d t => fcStripe src w b d nstripes t) dst).cell i j =
        if i * w.rows + j <
            min (stripeStart (src.rows * w.rows) nstripes s) (src.rows * w.rows)
        then cellVal src w b i j else dst.cell i j := by
  intro s
  induction s with
  | zero =>
    intro i j hsn hi hj
    rw [List.range_zero, List.foldl_nil, stripeStart, Nat.zero_mul, if_neg (by omega)]
  | succ m ih =>
    intro i j hsn hi hj
    have hp : i * w.rows + j < src.rows * w.rows := by
      calc i * w.rows + j < i * w.rows + w.rows := by omega
        _ = (i + 1) * w.rows := by ring
        _ ≤ src.rows * w.rows := Nat.mul_le_mul_right _ (by omega)
    have htot := stripeSize_mul_ge (src.rows * w.rows) nstripes hn
    rw [List.range_succ, List.foldl_append, List.foldl_cons, List.foldl_nil]
    rw [fcStripe, runFrom]
    rw [runFromAux_cell src w b _ _ _ _
      (by rw [fcRunUpTo_dataLength, hlen]
          exact stripeEnd_le_total _ _ _)
      (by intro idx hidx
          rw [fcRunUpTo_rowLen]
          rw [fcRunUpTo_dataLength] at hidx
          exact hrow idx hidx)
      le_rfl i j (by rw [fcRunUpTo_dataLength, hlen]; exact hi) hj]
    rw [ih i j (by omega) hi hj]
    -- arithmetic: combine the stripe interval with the already-written prefix
    have hmul : (m + 1) * stripeSize (src.rows * w.rows) nstripes =
        m * stripeSize (src.rows * w.rows) nstripes +
          stripeSize (src.rows * w.rows) nstripes := by ring
    rw [stripeStart, stripeStart]
    by_cases he : m + 1 = nstripes
    · have hend : stripeEnd (src.rows * w.rows) nstripes m = src.rows * w.rows := by
        rw [stripeEnd, if_pos he]
      have hBC : nstripes * stripeSize (src.rows * w.rows) nstripes =
          (m + 1) * stripeSize (src.rows * w.rows) nstripes := by rw [he]
      rw [hend]
      split_ifs <;> first | rfl | omega
    · have hend : stripeEnd (src.rows * w.rows) nstripes m =
          min ((m + 1) * stripeSize (src.rows * w.rows) nstripes) (src.rows * w.rows) := by
        rw [stripeEnd, if_neg he]
      rw [hend]
      split_ifs <;> first | rfl | omega

/-- Every output cell of the full run holds the scalar-kernel value. -/
theorem fcRun_cell (src w : MatQ) (b : List ℚ) (dst : MatQ) (nstripes : Nat)
    (hn : 1 ≤ nstripes) (hlen : dst.data.length = src.rows)
    (hrow : ∀ idx, idx < dst.data.length → dst.rowLen idx = w.rows)
    (i j : Nat) (hi : i < src.rows) (hj : j < w.rows) :
    (fcRun src w b dst nstripes).cell i j = cellVal src w b i j := by
  have hp : i * w.rows + j < src.rows * w.rows := by
    calc i * w.rows + j < i * w.rows + w.rows := by omega
      _ = (i + 1) * w.rows := by ring
      _ ≤ src.rows * w.rows := Nat.mul_le_mul_right _ (by omega)
  have htot := stripeSize_mul_ge (src.rows * w.rows) nstripes hn
  rw [fcRun, fcRunUpTo_cell src w b dst nstripes hn hlen hrow nstripes i j le_rfl hi hj,
    stripeStart, if_pos (by omega)]

theorem matQ_ext (m1 m2 : MatQ) (h1 : m1.rows = m2.rows) (h2 : m1.cols = m2.cols)
    (h3 : m1.step = m2.step) (h4 : m1.typ = m2.typ) (h5 : m1.data = m2.data) :
    m1 = m2 := by
  cases m1; cases m2; simp_all

/-- C2: for every `total ≥ 0` and `stripeCount ≥ 1` (including more stripes
than elements), the stripe ranges `[stripeStart s, stripeEnd s)` are
pairwise disjoint and cover `[0, total)` exactly once: every `x < total`
lies in exactly one stripe, and every stripe element is `< total`. -/
theorem C2_stripe_partition (total nstripes : Nat) (hn : 1 ≤ nstripes) :
    (∀ x, x < total →
      ∃! s, s < nstripes ∧ stripeStart total nstripes s ≤ x ∧
        x < stripeEnd total nstripes s) ∧
    (∀ s, s < nstripes → ∀ x, stripeStart total nstripes s ≤ x →
      x < stripeEnd total nstripes s → x < total) := by
  constructor
  · intro x hx
    have hss : 0 < stripeSize total nstripes := stripeSize_pos total nstripes hn (by omega)
    have htot := stripeSize_mul_ge total nstripes hn
    have hsx : x / stripeSize total nstripes < nstripes := by
      rw [Nat.div_lt_iff_lt_mul hss]; omega
    refine ⟨x / stripeSize total nstripes, ⟨hsx, ?_⟩, ?_⟩
    · exact (stripe_mem_iff total nstripes _ x hn hsx hx).mpr rfl
    · rintro s ⟨hs, hmem⟩
      exact (stripe_mem_iff total nstripes s x hn hs hx).mp ⟨hmem.1, hmem.2⟩
  · intro s hs x hlo hhi
    exact lt_of_lt_of_le hhi (stripeEnd_le_total total nstripes s)

theorem C2_stripe_partition_witness :
    (1 ≤ 4) ∧
    ((∀ x, x < 3 →
      ∃! s, s < 4 ∧ stripeStart 3 4 s ≤ x ∧ x < stripeEnd 3 4 s) ∧
    (∀ s, s < 4 → ∀ x, stripeStart 3 4 s ≤ x → x < stripeEnd 3 4 s → x < 3)) :=
  ⟨by decide, C2_stripe_partition 3 4 (by decide)⟩

/-- C1: for every valid configuration (input columns equal the weight
matrix's logical column count, output rows equal input rows, output columns
equal the number of outputs, bias length equals the number of outputs) and
any stripe count `≥ 1`, after the full run every output cell satisfies
`output[i][j] = bias[j] + Σ_k input[i][k] * weight[j][k]` in exact rational
arithmetic. -/
theorem C1_forward_output_formula (src weights : MatQ) (biasRow : List ℚ) (dst : MatQ)
    (nstripes : Nat) (hn : 1 ≤ nstripes)
    (hsc : src.cols = weights.cols)
    (hsl : src.data.length = src.rows)
    (hsr : ∀ r ∈ src.data, r.length = weights.cols)
    (hdr : dst.rows = src.rows) (hdc : dst.cols = weights.rows)
    (hdl : dst.data.length = dst.rows)
    (hdw : ∀ r ∈ dst.data, r.length = dst.cols)
    (hb : biasRow.length = weights.rows) :
    ∀ i j, i < src.rows → j < weights.rows →
      (fcRun src weights biasRow dst nstripes).cell i j =
        biasRow.getD j 0 + ∑ k ∈ Finset.range weights.cols,
          (src.data.getD i []).getD k 0 * (weights.data.getD j []).getD k 0 := by
  intro i j hi hj
  rw [fcRun_cell src weights biasRow dst nstripes hn (by rw [hdl, hdr])
    (fun idx hidx => by
      rw [MatQ.rowLen, List.getD_eq_getElem _ _ (by omega), hdw _ (List.getElem_mem _), hdc])
    i j hi hj]
  rw [cellVal, scalarDot_eq_sum, hsc]

theorem C1_forward_output_formula_witness :
    ((1 : Nat) ≤ 1) ∧
    (∀ i j, i < (⟨1, 2, 2, CV32F, [[2, 3]]⟩ : MatQ).rows →
      j < (⟨3, 2, 2, CV32F, [[1, 0], [0, 1], [1, 1]]⟩ : MatQ).rows →
      (fcRun ⟨1, 2, 2, CV32F, [[2, 3]]⟩ ⟨3, 2, 2, CV32F, [[1, 0], [0, 1], [1, 1]]⟩
          [0, 0, 0] ⟨1, 3, 3, CV32F, [[9, 9, 9]]⟩ 1).cell i j =
        ([0, 0, 0] : List ℚ).getD j 0 + ∑ k ∈ Finset.range 2,
          (([[2, 3]] : List (List ℚ)).getD i []).getD k 0 *
            (([[1, 0], [0, 1], [1, 1]] : List (List ℚ)).getD j []).getD k 0) :=
  ⟨by decide,
    C1_forward_output_formula ⟨1, 2, 2, CV32F, [[2, 3]]⟩
      ⟨3, 2, 2, CV32F, [[1, 0], [0, 1], [1, 1]]⟩ [0, 0, 0] ⟨1, 3, 3, CV32F, [[9, 9, 9]]⟩ 1
      (by decide) (by decide) (by decide) (by decide) (by decide) (by decide) (by decide)
      (by decide) (by decide)⟩

/-- C4: the output of the full run does not depend on the stripe count:
any two counts in `[1, total]` produce identical output matrices (exact
arithmetic; the stripe count is purely a performance parameter). -/
theorem C4_stripe_count_invariance (src weights : MatQ) (biasRow : List ℚ) (dst : MatQ)
    (n1 n2 : Nat)
    (hn1 : 1 ≤ n1) (hn1' : n1 ≤ src.rows * weights.rows)
    (hn2 : 1 ≤ n2) (hn2' : n2 ≤ src.rows * weights.rows)
    (hdr : dst.rows = src.rows) (hdc : dst.cols = weights.rows)
    (hdl : dst.data.length = dst.rows)
    (hdw : ∀ r ∈ dst.data, r.length = dst.cols) :
    fcRun src weights biasRow dst n1 = fcRun src weights biasRow dst n2 := by
  have hlen : dst.data.length = src.rows := by rw [hdl, hdr]
  have hrow : ∀ idx, idx < dst.data.length → dst.rowLen idx = weights.rows :=
    fun idx hidx => by
      rw [MatQ.rowLen, List.getD_eq_getElem _ _ (by omega), hdw _ (List.getElem_mem _), hdc]
  apply matQ_ext
  · rw [fcRun, fcRunUpTo_rows, fcRun, fcRunUpTo_rows]
  · rw [fcRun, fcRunUpTo_cols, fcRun, fcRunUpTo_cols]
  · rw [fcRun, fcRunUpTo_step, fcRun, fcRunUpTo_step]
  · rw [fcRun, fcRunUpTo_typ, fcRun, fcRunUpTo_typ]
  · have hL1 : (fcRun src weights biasRow dst n1).data.length = dst.data.length := by
      rw [fcRun, fcRunUpTo_dataLength]
    have hL2 : (fcRun src weights biasRow dst n2).data.length = dst.data.length := by
      rw [fcRun, fcRunUpTo_dataLength]
    have hR1 : ∀ idx, (fcRun src weights biasRow dst n1).rowLen idx = dst.rowLen idx :=
      fun idx => by rw [fcRun, fcRunUpTo_rowLen]
    have hR2 : ∀ idx, (fcRun src weights biasRow dst n2).rowLen idx = dst.rowLen idx :=
      fun idx => by rw [fcRun, fcRunUpTo_rowLen]
    apply List.ext_getElem (by rw [hL1, hL2])
    intro idx hidx1 hidx2
    have hidx : idx < dst.data.length := by rwa [hL1] at hidx1
    have hrl1 : ((fcRun src weights biasRow dst n1).data[idx]).length = dst.rowLen idx := by
      rw [← hR1 idx, MatQ.rowLen, List.getD_eq_getElem _ _ hidx1]
    have hrl2 : ((fcRun src weights biasRow dst n2).data[idx]).length = dst.rowLen idx := by
      rw [← hR2 idx, MatQ.rowLen, List.getD_eq_getElem _ _ hidx2]
    apply List.ext_getElem (by rw [hrl1, hrl2])
    intro j hj1 hj2
    have hj : j < weights.rows := by
      rw [hrl1] at hj1
      rwa [hrow idx hidx] at hj1
    have hcell1 : ((fcRun src weights biasRow dst n1).data[idx])[j] =
        (fcRun src weights biasRow dst n1).cell idx j := by
      rw [MatQ.cell, List.getD_eq_getElem _ _ hidx1, List.getD_eq_getElem _ _ hj1]
    have hcell2 : ((fcRun src weights biasRow dst n2).data[idx])[j] =
        (fcRun src weights biasRow dst n2).cell idx j := by
      rw [MatQ.cell, List.getD_eq_getElem _ _ hidx2, List.getD_eq_getElem _ _ hj2]
    rw [hcell1, hcell2,
      fcRun_cell src weights biasRow dst n1 hn1 hlen hrow idx j (by omega) hj,
      fcRun_cell src weights biasRow dst n2 hn2 hlen hrow idx j (by omega) hj]

theorem C4_stripe_count_invariance_witness :
    ((1 : Nat) ≤ 1 ∧ 1 ≤ 3 ∧ 1 ≤ 2 ∧ 2 ≤ 3) ∧
    fcRun ⟨1, 2, 2, CV32F, [[2, 3]]⟩ ⟨3, 2, 2, CV32F, [[1, 0], [0, 1], [1, 1]]⟩
        [0, 0, 0] ⟨1, 3, 3, CV32F, [[9, 9, 9]]⟩ 1 =
      fcRun ⟨1, 2, 2, CV32F, [[2, 3]]⟩ ⟨3, 2, 2, CV32F, [[1, 0], [0, 1], [1, 1]]⟩
        [0, 0, 0] ⟨1, 3, 3, CV32F, [[9, 9, 9]]⟩ 2 :=
  ⟨by decide,
    C4_stripe_count_invariance ⟨1, 2, 2, CV32F, [[2, 3]]⟩
      ⟨3, 2, 2, CV32F, [[1, 0], [0, 1], [1, 1]]⟩ [0, 0, 0] ⟨1, 3, 3, CV32F, [[9, 9, 9]]⟩
      1 2 (by decide) (by decide) (by decide) (by decide) (by decide) (by decide)
      (by decide) (by decide)⟩

/-! ## Weight preparation -/

theorem chunkRows_length (rows cols : Nat) (data : List ℚ) :
    (chunkRows rows cols data).length = rows := by simp [chunkRows]

theorem chunkRows_getD (rows cols : Nat) (data : List ℚ) (j : Nat) (hj : j < rows) :
    (chunkRows rows cols data).getD j [] = (data.drop (j * cols)).take cols := by
  rw [chunkRows, List.getD_eq_getElem _ _ (by simpa using hj)]
  simp

theorem take_drop_length (data : List ℚ) (a c : Nat) (h : a + c ≤ data.length) :
    ((data.drop a).take c).length = c := by
  simp only [List.length_take, List.length_drop]
  omega

theorem take_drop_getD (data : List ℚ) (a c k : Nat) (hk : k < c) (h : a + c ≤ data.length) :
    ((data.drop a).take c).getD k 0 = data.getD (a + k) 0 := by
  rw [List.getD_eq_getElem _ _ (by rw [take_drop_length data a c h]; exact hk),
    List.getD_eq_getElem _ _ (by omega)]
  simp [List.getElem_take, List.getElem_drop]

theorem reshape2D_of_dvd (t : TensorQ) (n : Nat) (h0 : 0 < n) (hd : n ∣ t.total)
    (hok : t.shape.headD 0 = n ∨ n ≤ t.total ∨ 2 < t.shape.length) :
    t.reshape2D n = some ⟨n, t.total / n, t.total / n, t.typ,
      chunkRows n (t.total / n) t.data⟩ := by
  rw [TensorQ.reshape2D, if_pos ⟨h0, Nat.mod_eq_zero_of_dvd hd, hok⟩]

theorem padWeights_rows (w0 : MatQ) : (padWeights w0).rows = w0.rows := by
  rw [padWeights]; split_ifs <;> rfl

theorem padWeights_cols (w0 : MatQ) : (padWeights w0).cols = w0.cols := by
  rw [padWeights]; split_ifs <;> rfl

theorem padWeights_typ (w0 : MatQ) : (padWeights w0).typ = w0.typ := by
  rw [padWeights]; split_ifs <;> rfl

/-- The constructor succeeds and returns the padded weights and the bias
row when all its asserts hold. -/
theorem fcConstruct_eq_ok (blobs : List TensorQ) (nO : Nat) (bt : Bool) (ax : Nat)
    (h0 : 0 < nO)
    (hblen : 1 ≤ blobs.length ∧ blobs.length ≤ 2)
    (hdims : 2 ≤ (blobs.getD 0 emptyTensor).shape.length)
    (hdvd : nO ∣ (blobs.getD 0 emptyTensor).total)
    (hre : (blobs.getD 0 emptyTensor).shape.headD 0 = nO ∨
      nO ≤ (blobs.getD 0 emptyTensor).total ∨ 2 < (blobs.getD 0 emptyTensor).shape.length)
    (hbias : bt = true → blobs.length = 2 ∧ (blobs.getD 1 emptyTensor).total = nO) :
    fcConstruct blobs nO bt ax =
      .ok ⟨nO, bt, ax,
        padWeights ⟨nO, (blobs.getD 0 emptyTensor).total / nO,
          (blobs.getD 0 emptyTensor).total / nO, (blobs.getD 0 emptyTensor).typ,
          chunkRows nO ((blobs.getD 0 emptyTensor).total / nO)
            (blobs.getD 0 emptyTensor).data⟩,
        if bt then ((blobs.getD 1 emptyTensor).reshape2D 1).getD ⟨1, 0, 0, 0, []⟩
        else zerosRow nO (blobs.getD 0 emptyTensor).typ⟩ := by
  unfold fcConstruct
  rw [if_pos hblen, if_pos ⟨hdims, Nat.div_mul_cancel hdvd⟩,
    if_pos ?hb, reshape2D_of_dvd _ _ h0 hdvd hre]
  case hb =>
    cases bt with
    | false => rfl
    | true =>
      simp only [Bool.not_true, Bool.false_or, decide_eq_true_eq]
      exact hbias rfl
  cases bt with
  | false => simp [padWeights_typ]
  | true => simp

/-- Inversion: a successful construction pins down every assert and the
resulting layer value. -/
theorem fcConstruct_ok_inv (blobs : List TensorQ) (nO : Nat) (bt : Bool) (ax : Nat)
    (L : FCLayer) (h : fcConstruct blobs nO bt ax = .ok L) :
    0 < nO ∧ nO ∣ (blobs.getD 0 emptyTensor).total ∧
    ((blobs.getD 0 emptyTensor).shape.headD 0 = nO ∨
      nO ≤ (blobs.getD 0 emptyTensor).total ∨
      2 < (blobs.getD 0 emptyTensor).shape.length) ∧
    (1 ≤ blobs.length ∧ blobs.length ≤ 2) ∧
    2 ≤ (blobs.getD 0 emptyTensor).shape.length ∧
    (bt = true → blobs.length = 2 ∧ (blobs.getD 1 emptyTensor).total = nO) ∧
    L = ⟨nO, bt, ax,
      padWeights ⟨nO, (blobs.getD 0 emptyTensor).total / nO,
        (blobs.getD 0 emptyTensor).total / nO, (blobs.getD 0 emptyTensor).typ,
        chunkRows nO ((blobs.getD 0 emptyTensor).total / nO)
          (blobs.getD 0 emptyTensor).data⟩,
      if bt then ((blobs.getD 1 emptyTensor).reshape2D 1).getD ⟨1, 0, 0, 0, []⟩
      else zerosRow nO (blobs.getD 0 emptyTensor).typ⟩ := by
  unfold fcConstruct at h
  by_cases h1 : 1 ≤ blobs.length ∧ blobs.length ≤ 2
  case neg => rw [if_neg h1] at h; exact absurd h (by simp)
  rw [if_pos h1] at h
  by_cases h2 : 2 ≤ (blobs.getD 0 emptyTensor).shape.length ∧
      ((blobs.getD 0 emptyTensor).total / nO) * nO = (blobs.getD 0 emptyTensor).total
  case neg => rw [if_neg h2] at h; exact absurd h (by simp)
  rw [if_pos h2] at h
  by_cases h3 : (!bt || (blobs.length = 2 ∧ (blobs.getD 1 emptyTensor).total = nO) : Prop)
  case neg => rw [if_neg h3] at h; exact absurd h (by simp)
  rw [if_pos h3] at h
  rcases hr : (blobs.getD 0 emptyTensor).reshape2D nO with - | w0 <;> rw [hr] at h
  · exact absurd h (by simp)
  · have hg : 0 < nO ∧ (blobs.getD 0 emptyTensor).total % nO = 0 ∧
        ((blobs.getD 0 emptyTensor).shape.headD 0 = nO ∨
          nO ≤ (blobs.getD 0 emptyTensor).total ∨
          2 < (blobs.getD 0 emptyTensor).shape.length) := by
      by_contra hc
      rw [TensorQ.reshape2D, if_neg hc] at hr
      exact absurd hr (by simp)
    have hdvd : nO ∣ (blobs.getD 0 emptyTensor).total := Nat.dvd_of_mod_eq_zero hg.2.1
    have hbias : bt = true → blobs.length = 2 ∧ (blobs.getD 1 emptyTensor).total = nO := by
      intro hbt
      rw [hbt] at h3
      simpa using h3
    rw [reshape2D_of_dvd _ _ hg.1 hdvd hg.2.2] at hr
    have hw0 : w0 = ⟨nO, (blobs.getD 0 emptyTensor).total / nO,
        (blobs.getD 0 emptyTensor).total / nO, (blobs.getD 0 emptyTensor).typ,
        chunkRows nO ((blobs.getD 0 emptyTensor).total / nO)
          (blobs.getD 0 emptyTensor).data⟩ := (Option.some.inj hr).symm
    refine ⟨hg.1, hdvd, hg.2.2, h1, h2.1, hbias, ?_⟩
    have hL := Except.ok.inj h
    rw [← hL, hw0]
    simp [padWeights_typ]

theorem alignSize_ge (sz n : Nat) (h : 0 < n) : sz ≤ alignSize sz n := by
  rw [alignSize]
  have h1 := Nat.div_add_mod (sz + n - 1) n
  have h2 := Nat.mod_lt (sz + n - 1) h
  have hc : (sz + n - 1) / n * n = n * ((sz + n - 1) / n) := Nat.mul_comm _ _
  generalize hm : n * ((sz + n - 1) / n) = m at h1 hc
  omega

theorem alignSize_mod (sz n : Nat) : alignSize sz n % n = 0 := by
  rw [alignSize]
  exact Nat.mul_mod_left _ _

theorem getD_map_row (l : List (List ℚ)) (f : List ℚ → List ℚ) (j : Nat)
    (hj : j < l.length) : (l.map f).getD j [] = f (l.getD j []) := by
  rw [List.getD_eq_getElem _ _ (by simpa using hj), List.getD_eq_getElem _ _ hj,
    List.getElem_map]

theorem replicate_getD_zero (m k : Nat) : (List.replicate m (0 : ℚ)).getD k 0 = 0 := by
  rcases Nat.lt_or_ge k m with hk | hk
  · rw [List.getD_eq_getElem _ _ (by simpa using hk), List.getElem_replicate]
  · rw [List.getD_eq_default _ _ (by simpa using hk)]

theorem scalarDot_pad (x w : List ℚ) (n m : Nat) (hnm : n ≤ m)
    (hz : ∀ k, n ≤ k → w.getD k 0 = 0) (init : ℚ) :
    scalarDot x w m init = scalarDot x w n init := by
  rw [scalarDot_eq_sum, scalarDot_eq_sum]
  congr 1
  rw [← Finset.sum_range_add_sum_Ico _ hnm]
  have hzero : ∑ k ∈ Finset.Ico n m, x.getD k 0 * w.getD k 0 = 0 :=
    Finset.sum_eq_zero fun k hk => by
      rw [hz k (Finset.mem_Ico.mp hk).1, mul_zero]
  rw [hzero, add_zero]

/-- C3: after weight preparation, the stored weight matrix has stride
`≥ innerSize` that is a multiple of 8; each stored row consists of the
original `innerSize` values followed by exact zeros, so a dot product over
the full stride equals the dot product over the unpadded width; and when
`innerSize` is already a multiple of 8 the stride equals `innerSize` and
the reshaped view is used directly with no copy. -/
theorem C3_weight_padding (blobs : List TensorQ) (nO : Nat) (bt : Bool) (ax : Nat)
    (L : FCLayer)
    (hwf : (blobs.getD 0 emptyTensor).wf)
    (h : fcConstruct blobs nO bt ax = .ok L) :
    L.weightsMat.rows = nO ∧
    L.weightsMat.cols = (blobs.getD 0 emptyTensor).total / nO ∧
    L.weightsMat.cols ≤ L.weightsMat.step ∧
    L.weightsMat.step % 8 = 0 ∧
    (∀ j, j < nO →
      (L.weightsMat.data.getD j []).length = L.weightsMat.step ∧
      (∀ k, k < L.weightsMat.cols →
        (L.weightsMat.data.getD j []).getD k 0 =
          (blobs.getD 0 emptyTensor).data.getD (j * L.weightsMat.cols + k) 0) ∧
      (∀ k, L.weightsMat.cols ≤ k → (L.weightsMat.data.getD j []).getD k 0 = 0) ∧
      (∀ (x : List ℚ) (init : ℚ),
        scalarDot x (L.weightsMat.data.getD j []) L.weightsMat.step init =
          scalarDot x (L.weightsMat.data.getD j []) L.weightsMat.cols init)) ∧
    ((blobs.getD 0 emptyTensor).total / nO % 8 = 0 →
      L.weightsMat.step = L.weightsMat.cols ∧
      (blobs.getD 0 emptyTensor).reshape2D nO = some L.weightsMat) := by
  obtain ⟨h0, hdvd, hre, -, -, -, hL⟩ := fcConstruct_ok_inv blobs nO bt ax L h
  subst hL
  rw [TensorQ.wf] at hwf
  have hdl : (blobs.getD 0 emptyTensor).data.length = (blobs.getD 0 emptyTensor).total :=
    hwf
  have hIN : ((blobs.getD 0 emptyTensor).total / nO) * nO =
      (blobs.getD 0 emptyTensor).total := Nat.div_mul_cancel hdvd
  dsimp only
  rw [padWeights]
  by_cases hmod : ((blobs.getD 0 emptyTensor).total / nO) % 8 ≠ 0
  · rw [if_pos (by simpa using hmod)]
    dsimp only
    have hal := alignSize_ge ((blobs.getD 0 emptyTensor).total / nO) 8 (by omega)
    refine ⟨rfl, rfl, hal, alignSize_mod _ 8, ?_, by intro hcon; exact absurd hcon hmod⟩
    intro j hj
    have hrowbound : j * ((blobs.getD 0 emptyTensor).total / nO) +
        ((blobs.getD 0 emptyTensor).total / nO) ≤ (blobs.getD 0 emptyTensor).data.length := by
      rw [hdl]
      calc j * ((blobs.getD 0 emptyTensor).total / nO) +
            ((blobs.getD 0 emptyTensor).total / nO) =
          (j + 1) * ((blobs.getD 0 emptyTensor).total / nO) := by ring
        _ ≤ nO * ((blobs.getD 0 emptyTensor).total / nO) := Nat.mul_le_mul_right _ (by omega)
        _ = ((blobs.getD 0 emptyTensor).total / nO) * nO := Nat.mul_comm _ _
        _ = (blobs.getD 0 emptyTensor).total := hIN
    have hrow : ((chunkRows nO ((blobs.getD 0 emptyTensor).total / nO)
        (blobs.getD 0 emptyTensor).data).map
          (fun r => r ++ List.replicate
            (alignSize ((blobs.getD 0 emptyTensor).total / nO) 8 -
              (blobs.getD 0 emptyTensor).total / nO) 0)).getD j [] =
        (((blobs.getD 0 emptyTensor).data.drop
            (j * ((blobs.getD 0 emptyTensor).total / nO))).take
          ((blobs.getD 0 emptyTensor).total / nO)) ++
          List.replicate (alignSize ((blobs.getD 0 emptyTensor).total / nO) 8 -
            (blobs.getD 0 emptyTensor).total / nO) 0 := by
      rw [getD_map_row _ _ j (by rw [chunkRows_length]; exact hj),
        chunkRows_getD _ _ _ j hj]
    rw [hrow]
    have htlen := take_drop_length (blobs.getD 0 emptyTensor).data
      (j * ((blobs.getD 0 emptyTensor).total / nO)) ((blobs.getD 0 emptyTensor).total / nO)
      hrowbound
    have hlen : ((((blobs.getD 0 emptyTensor).data.drop
        (j * ((blobs.getD 0 emptyTensor).total / nO))).take
          ((blobs.getD 0 emptyTensor).total / nO)) ++
          List.replicate (alignSize ((blobs.getD 0 emptyTensor).total / nO) 8 -
            (blobs.getD 0 emptyTensor).total / nO) 0).length =
        alignSize ((blobs.getD 0 emptyTensor).total / nO) 8 := by
      rw [List.length_append, htlen, List.length_replicate]
      omega
    have hzero : ∀ k, (blobs.getD 0 emptyTensor).total / nO ≤ k →
        ((((blobs.getD 0 emptyTensor).data.drop
          (j * ((blobs.getD 0 emptyTensor).total / nO))).take
            ((blobs.getD 0 emptyTensor).total / nO)) ++
            List.replicate (alignSize ((blobs.getD 0 emptyTensor).total / nO) 8 -
              (blobs.getD 0 emptyTensor).total / nO) 0).getD k 0 = 0 := by
      intro k hk
      rw [List.getD_append_right _ _ _ _ (by rw [htlen]; exact hk), htlen,
        replicate_getD_zero]
    refine ⟨hlen, ?_, hzero, ?_⟩
    · intro k hk
      rw [List.getD_append _ _ _ _ (by rw [htlen]; exact hk),
        take_drop_getD _ _ _ _ hk hrowbound]
    · intro x init
      exact scalarDot_pad x _ _ _ hal hzero init
  · rw [if_neg (by simpa using hmod)]
    dsimp only
    refine ⟨rfl, rfl, le_rfl, by simpa using hmod, ?_, ?_⟩
    · intro j hj
      have hrowbound : j * ((blobs.getD 0 emptyTensor).total / nO) +
          ((blobs.getD 0 emptyTensor).total / nO) ≤
            (blobs.getD 0 emptyTensor).data.length := by
        rw [hdl]
        calc j * ((blobs.getD 0 emptyTensor).total / nO) +
              ((blobs.getD 0 emptyTensor).total / nO) =
            (j + 1) * ((blobs.getD 0 emptyTensor).total / nO) := by ring
          _ ≤ nO * ((blobs.getD 0 emptyTensor).total / nO) := Nat.mul_le_mul_right _ (by omega)
          _ = ((blobs.getD 0 emptyTensor).total / nO) * nO := Nat.mul_comm _ _
          _ = (blobs.getD 0 emptyTensor).total := hIN
      rw [chunkRows_getD _ _ _ j hj]
      have htlen := take_drop_length (blobs.getD 0 emptyTensor).data
        (j * ((blobs.getD 0 emptyTensor).total / nO))
        ((blobs.getD 0 emptyTensor).total / nO) hrowbound
      refine ⟨htlen, ?_, ?_, fun x init => rfl⟩
      · intro k hk
        rw [take_drop_getD _ _ _ _ hk hrowbound]
      · intro k hk
        rw [List.getD_eq_default _ _ (by rw [htlen]; exact hk)]
    · intro _
      exact ⟨rfl, reshape2D_of_dvd _ _ h0 hdvd hre⟩

theorem C3_weight_padding_witness :
    (⟨[4, 10], CV32F, List.replicate 40 (0 : ℚ)⟩ : TensorQ).wf ∧
    ∃ L, fcConstruct [⟨[4, 10], CV32F, List.replicate 40 (0 : ℚ)⟩] 4 false 1 =
        .ok L ∧
      (L.weightsMat.rows = 4 ∧
       L.weightsMat.cols =
        (([⟨[4, 10], CV32F, List.replicate 40 (0 : ℚ)⟩] :
          List TensorQ).getD 0 emptyTensor).total / 4 ∧
       L.weightsMat.cols ≤ L.weightsMat.step ∧
       L.weightsMat.step % 8 = 0 ∧
       (∀ j, j < 4 →
        (L.weightsMat.data.getD j []).length = L.weightsMat.step ∧
        (∀ k, k < L.weightsMat.cols →
          (L.weightsMat.data.getD j []).getD k 0 =
            (([⟨[4, 10], CV32F, List.replicate 40 (0 : ℚ)⟩] :
              List TensorQ).getD 0 emptyTensor).data.getD (j * L.weightsMat.cols + k) 0) ∧
        (∀ k, L.weightsMat.cols ≤ k → (L.weightsMat.data.getD j []).getD k 0 = 0) ∧
        (∀ (x : List ℚ) (init : ℚ),
          scalarDot x (L.weightsMat.data.getD j []) L.weightsMat.step init =
            scalarDot x (L.weightsMat.data.getD j []) L.weightsMat.cols init)) ∧
       ((([⟨[4, 10], CV32F, List.replicate 40 (0 : ℚ)⟩] :
          List TensorQ).getD 0 emptyTensor).total / 4 % 8 = 0 →
        L.weightsMat.step = L.weightsMat.cols ∧
        (([⟨[4, 10], CV32F, List.replicate 40 (0 : ℚ)⟩] :
          List TensorQ).getD 0 emptyTensor).reshape2D 4 = some L.weightsMat)) :=
  ⟨rfl, _, rfl,
    C3_weight_padding [⟨[4, 10], CV32F, List.replicate 40 (0 : ℚ)⟩] 4 false 1 _
      rfl rfl⟩

/-! ## Construction success and failure -/

/-- C6 (counterexample): the claim requires construction to fail whenever
the raw weight element count is not `numOutputs * innerSize` for any
positive `innerSize`.  A weight blob shaped `3×0` (two dims, zero elements,
first dimension already equal to `numOutputs = 3`) admits no such positive
`innerSize`, yet the constructor accepts it: `innerSize = 0/3 = 0` passes
the assert (`0 * 3 == 0`), and `reshape(1, 3)` is the identity because the
row count already matches, so no reshape error fires either. -/
theorem C6_counterexample_zero_total :
    (fcConstruct [⟨[3, 0], CV32F, []⟩] 3 false 1).isOk = true ∧
    ∀ k : Nat, 0 < k → (⟨[3, 0], CV32F, []⟩ : TensorQ).total ≠ 3 * k := by
  refine ⟨rfl, ?_⟩
  intro k hk
  show (0 : Nat) ≠ 3 * k
  omega

/-- C6 (amended): for positive `numOutputs` and a raw weight tensor with at
least two dims, construction fails iff `numOutputs` does not divide the raw
weight element count, or the reshape to `numOutputs` rows is itself
rejected — which, given divisibility, happens exactly when the weight
tensor has zero elements, exactly two dims, and a first dimension different
from `numOutputs` (reshape's "Bad new number of rows"); an empty tensor
already shaped `numOutputs × 0`, or an empty one with more than two dims,
is accepted with `innerSize = 0` — or the bias term is enabled and the raw
bias element count differs from `numOutputs`.  On success the weight matrix
has `numOutputs` rows and the bias vector is a row of length
`numOutputs`. -/
theorem C6_construct_shape_check (w b : TensorQ) (nO ax : Nat) (hnO : 0 < nO)
    (hdw : 2 ≤ w.shape.length) :
    ((fcConstruct [w] nO false ax).isOk = true ↔
      (nO ∣ w.total ∧
        (w.shape.headD 0 = nO ∨ nO ≤ w.total ∨ 2 < w.shape.length))) ∧
    ((fcConstruct [w, b] nO true ax).isOk = true ↔
      (nO ∣ w.total ∧
        (w.shape.headD 0 = nO ∨ nO ≤ w.total ∨ 2 < w.shape.length) ∧
        b.total = nO)) ∧
    (∀ L, fcConstruct [w] nO false ax = .ok L ∨ fcConstruct [w, b] nO true ax = .ok L →
      L.weightsMat.rows = nO ∧ L.biasMat.rows = 1 ∧ L.biasMat.cols = nO) := by
  refine ⟨⟨?_, ?_⟩, ⟨?_, ?_⟩, ?_⟩
  · intro hok
    rcases hfc : fcConstruct [w] nO false ax with e | L
    · rw [hfc] at hok; exact absurd hok (by simp [Except.isOk, Except.toBool])
    · obtain ⟨-, hdvd, hre, -, -, -, -⟩ := fcConstruct_ok_inv _ _ _ _ _ hfc
      exact ⟨hdvd, hre⟩
  · rintro ⟨hdvd, hre⟩
    rw [fcConstruct_eq_ok [w] nO false ax hnO (by constructor <;> simp) hdw hdvd hre
      (fun hc => by simp at hc)]
    rfl
  · intro hok
    rcases hfc : fcConstruct [w, b] nO true ax with e | L
    · rw [hfc] at hok; exact absurd hok (by simp [Except.isOk, Except.toBool])
    · obtain ⟨-, hdvd, hre, -, -, hbias, -⟩ := fcConstruct_ok_inv _ _ _ _ _ hfc
      exact ⟨hdvd, hre, (hbias rfl).2⟩
  · rintro ⟨hdvd, hre, hb⟩
    rw [fcConstruct_eq_ok [w, b] nO true ax hnO (by constructor <;> simp) hdw hdvd hre
      (fun _ => ⟨rfl, hb⟩)]
    rfl
  · rintro L (h | h) <;>
      obtain ⟨h0, hdvd, hre, -, -, hbias, hL⟩ := fcConstruct_ok_inv _ _ _ _ _ h <;>
      subst hL
    · refine ⟨by dsimp only; rw [padWeights_rows], rfl, rfl⟩
    · refine ⟨by dsimp only; rw [padWeights_rows], ?_, ?_⟩ <;>
        · dsimp only
          have hb2 : b.total = nO := (hbias rfl).2
          simp only [List.getD_cons_zero, List.getD_cons_succ]
          rw [if_pos trivial,
            reshape2D_of_dvd _ 1 (by omega) (one_dvd _) (Or.inr (Or.inl (by omega)))]
          simp [hb2]

theorem C6_construct_shape_check_witness :
    ((0 : Nat) < 2 ∧ 2 ≤ ([2, 4] : List Nat).length) ∧
    (((fcConstruct [⟨[2, 4], CV32F, List.replicate 8 (0 : ℚ)⟩] 2 false 1).isOk = true ↔
        (2 ∣ (⟨[2, 4], CV32F, List.replicate 8 (0 : ℚ)⟩ : TensorQ).total ∧
          ((⟨[2, 4], CV32F, List.replicate 8 (0 : ℚ)⟩ : TensorQ).shape.headD 0 = 2 ∨
            2 ≤ (⟨[2, 4], CV32F, List.replicate 8 (0 : ℚ)⟩ : TensorQ).total ∨
            2 < (⟨[2, 4], CV32F, List.replicate 8 (0 : ℚ)⟩ : TensorQ).shape.length))) ∧
    ((fcConstruct [⟨[2, 4], CV32F, List.replicate 8 (0 : ℚ)⟩,
        ⟨[1, 2], CV32F, [0, 0]⟩] 2 true 1).isOk = true ↔
      (2 ∣ (⟨[2, 4], CV32F, List.replicate 8 (0 : ℚ)⟩ : TensorQ).total ∧
        ((⟨[2, 4], CV32F, List.replicate 8 (0 : ℚ)⟩ : TensorQ).shape.headD 0 = 2 ∨
          2 ≤ (⟨[2, 4], CV32F, List.replicate 8 (0 : ℚ)⟩ : TensorQ).total ∨
          2 < (⟨[2, 4], CV32F, List.replicate 8 (0 : ℚ)⟩ : TensorQ).shape.length) ∧
        (⟨[1, 2], CV32F, ([0, 0] : List ℚ)⟩ : TensorQ).total = 2)) ∧
    (∀ L, fcConstruct [⟨[2, 4], CV32F, List.replicate 8 (0 : ℚ)⟩] 2 false 1 = .ok L ∨
        fcConstruct [⟨[2, 4], CV32F, List.replicate 8 (0 : ℚ)⟩,
          ⟨[1, 2], CV32F, [0, 0]⟩] 2 true 1 = .ok L →
      L.weightsMat.rows = 2 ∧ L.biasMat.rows = 1 ∧ L.biasMat.cols = 2)) :=
  ⟨⟨by decide, by decide⟩,
    C6_construct_shape_check ⟨[2, 4], CV32F, List.replicate 8 (0 : ℚ)⟩
      ⟨[1, 2], CV32F, [0, 0]⟩ 2 1 (by decide) (by decide)⟩

/-- Reshaping the all-zero bias blob to one row yields the same matrix as
`Mat::zeros(1, numOutput)`. -/
theorem zero_bias_reshape (typ nO : Nat) :
    ((⟨[1, nO], typ, List.replicate nO 0⟩ : TensorQ).reshape2D 1).getD ⟨1, 0, 0, 0, []⟩ =
      ⟨1, nO, nO, typ, [List.replicate nO 0]⟩ := by
  rw [reshape2D_of_dvd (⟨[1, nO], typ, List.replicate nO 0⟩ : TensorQ) 1 (by omega)
    (one_dvd _) (Or.inl rfl), Option.getD_some]
  have ht : (⟨[1, nO], typ, List.replicate nO 0⟩ : TensorQ).total = nO := by
    simp [TensorQ.total]
  apply matQ_ext
  · rfl
  · rw [ht, Nat.div_one]
  · rw [ht, Nat.div_one]
  · rfl
  · rw [ht, Nat.div_one]
    show chunkRows 1 nO (List.replicate nO 0) = [List.replicate nO 0]
    rw [chunkRows]
    have hr1 : List.range 1 = [0] := rfl
    rw [hr1]
    simp [List.take_replicate]

/-- Constructing without a bias term and constructing with an all-zero bias
blob either both fail or both succeed with the same prepared weight matrix
and the same bias row. -/
theorem construct_bias_zero_master (w : TensorQ) (nO ax : Nat) :
    (fcConstruct [w] nO false ax = .error .assert ∧
      fcConstruct [w, ⟨[1, nO], w.typ, List.replicate nO 0⟩] nO true ax = .error .assert) ∨
    (∃ W, fcConstruct [w] nO false ax =
        .ok ⟨nO, false, ax, W, ⟨1, nO, nO, w.typ, [List.replicate nO 0]⟩⟩ ∧
      fcConstruct [w, ⟨[1, nO], w.typ, List.replicate nO 0⟩] nO true ax =
        .ok ⟨nO, true, ax, W, ⟨1, nO, nO, w.typ, [List.replicate nO 0]⟩⟩) := by
  have hz : (⟨[1, nO], w.typ, List.replicate nO 0⟩ : TensorQ).total = nO := by
    simp [TensorQ.total]
  by_cases hc : 2 ≤ w.shape.length ∧ (w.total / nO) * nO = w.total
  · by_cases h0 : 0 < nO
    · have hdvd : nO ∣ w.total := ⟨w.total / nO, by rw [Nat.mul_comm]; exact hc.2.symm⟩
      by_cases hre : w.shape.headD 0 = nO ∨ nO ≤ w.total ∨ 2 < w.shape.length
      case neg =>
        left
        have hng : ¬(0 < nO ∧ w.total % nO = 0 ∧
            (w.shape.headD 0 = nO ∨ nO ≤ w.total ∨ 2 < w.shape.length)) :=
          fun hcc => hre hcc.2.2
        constructor <;>
          · unfold fcConstruct
            simp only [List.getD_cons_zero, List.getD_cons_succ]
            rw [if_pos (by constructor <;> simp), if_pos hc, if_pos (by simp [hz]),
              TensorQ.reshape2D, if_neg hng]
      right
      refine ⟨padWeights ⟨nO, w.total / nO, w.total / nO, w.typ,
        chunkRows nO (w.total / nO) w.data⟩, ?_, ?_⟩
      · rw [fcConstruct_eq_ok [w] nO false ax h0 (by constructor <;> simp) hc.1 hdvd hre
          (fun hb => by simp at hb)]
        rfl
      · rw [fcConstruct_eq_ok [w, ⟨[1, nO], w.typ, List.replicate nO 0⟩] nO true ax h0
          (by constructor <;> simp) hc.1 hdvd hre (fun _ => ⟨rfl, hz⟩)]
        simp only [List.getD_cons_zero, List.getD_cons_succ]
        rw [if_pos trivial, zero_bias_reshape]
    · left
      have hn0 : nO = 0 := by omega
      subst hn0
      constructor <;>
        · unfold fcConstruct
          simp only [List.getD_cons_zero, List.getD_cons_succ]
          rw [if_pos (by constructor <;> simp), if_pos (by
              refine ⟨hc.1, ?_⟩
              have h2 := hc.2
              simpa using h2)]
          rw [if_pos (by simp [TensorQ.total])]
          rw [TensorQ.reshape2D, if_neg (by simp)]
  · left
    constructor <;>
      · unfold fcConstruct
        simp only [List.getD_cons_zero, List.getD_cons_succ]
        rw [if_pos (by constructor <;> simp), if_neg hc]

/-- C7: disabling the bias term is observationally identical to enabling it
with an all-zero bias blob of length `numOutputs`: the prepared weight and
bias matrices agree, `forward` produces exactly the same result on every
batch, and the bias-disabled path prepares the all-zero bias row of length
`numOutputs`. -/
theorem C7_bias_disabled_equiv (w : TensorQ) (nO ax : Nat) :
    (Except.map (fun L => (L.weightsMat, L.biasMat)) (fcConstruct [w] nO false ax) =
      Except.map (fun L => (L.weightsMat, L.biasMat))
        (fcConstruct [w, ⟨[1, nO], w.typ, List.replicate nO 0⟩] nO true ax)) ∧
    (∀ nstripes inputs outputs,
      Except.map (fun L => forward L nstripes inputs outputs)
          (fcConstruct [w] nO false ax) =
        Except.map (fun L => forward L nstripes inputs outputs)
          (fcConstruct [w, ⟨[1, nO], w.typ, List.replicate nO 0⟩] nO true ax)) ∧
    (∀ L, fcConstruct [w] nO false ax = .ok L →
      L.biasMat = ⟨1, nO, nO, w.typ, [List.replicate nO 0]⟩) := by
  rcases construct_bias_zero_master w nO ax with ⟨h1, h2⟩ | ⟨W, h1, h2⟩
  · rw [h1, h2]
    exact ⟨rfl, fun _ _ _ => rfl, fun L hL => Except.noConfusion hL⟩
  · rw [h1, h2]
    refine ⟨rfl, fun nstripes inputs outputs => ?_, fun L hL => ?_⟩
    · rfl
    · have := Except.ok.inj hL
      rw [← this]

theorem C7_bias_disabled_equiv_witness :
    (Except.map (fun L => (L.weightsMat, L.biasMat))
        (fcConstruct [⟨[2, 8], CV32F, List.replicate 16 (1 : ℚ)⟩] 2 false 1) =
      Except.map (fun L => (L.weightsMat, L.biasMat))
        (fcConstruct [⟨[2, 8], CV32F, List.replicate 16 (1 : ℚ)⟩,
          ⟨[1, 2], CV32F, List.replicate 2 0⟩] 2 true 1)) ∧
    (∀ nstripes inputs outputs,
      Except.map (fun L => forward L nstripes inputs outputs)
          (fcConstruct [⟨[2, 8], CV32F, List.replicate 16 (1 : ℚ)⟩] 2 false 1) =
        Except.map (fun L => forward L nstripes inputs outputs)
          (fcConstruct [⟨[2, 8], CV32F, List.replicate 16 (1 : ℚ)⟩,
            ⟨[1, 2], CV32F, List.replicate 2 0⟩] 2 true 1)) ∧
    (∀ L, fcConstruct [⟨[2, 8], CV32F, List.replicate 16 (1 : ℚ)⟩] 2 false 1 = .ok L →
      L.biasMat = ⟨1, 2, 2, CV32F, [List.replicate 2 0]⟩) :=
  C7_bias_disabled_equiv ⟨[2, 8], CV32F, List.replicate 16 (1 : ℚ)⟩ 2 1

theorem foldl_add_map_sum (f : List Nat → Nat) (l : List (List Nat)) (a : Nat) :
    l.foldl (fun acc s => acc + f s) a = a + (l.map f).sum := by
  induction l generalizing a with
  | nil => simp
  | cons x xs ih =>
    rw [List.foldl_cons, ih, List.map_cons, List.sum_cons]
    omega

/-- C8: `getFLOPS` returns exactly the sum over the output shapes of
`3 * innerSize * (output element count)`, where `innerSize` is the logical
(unpadded) column count of the prepared weight matrix — even when the
stored row stride was padded. -/
theorem C8_getFLOPS_formula (blobs : List TensorQ) (nO : Nat) (bt : Bool) (ax : Nat)
    (L : FCLayer) (outs : List (List Nat))
    (h : fcConstruct blobs nO bt ax = .ok L) :
    getFLOPS L outs =
      (outs.map (fun s => 3 * ((blobs.getD 0 emptyTensor).total / nO) * s.prod)).sum ∧
    L.weightsMat.cols = (blobs.getD 0 emptyTensor).total / nO := by
  obtain ⟨-, -, -, -, -, -, hL⟩ := fcConstruct_ok_inv blobs nO bt ax L h
  subst hL
  have hcols : (padWeights ⟨nO, (blobs.getD 0 emptyTensor).total / nO,
      (blobs.getD 0 emptyTensor).total / nO, (blobs.getD 0 emptyTensor).typ,
      chunkRows nO ((blobs.getD 0 emptyTensor).total / nO)
        (blobs.getD 0 emptyTensor).data⟩).cols =
      (blobs.getD 0 emptyTensor).total / nO := padWeights_cols _
  constructor
  · rw [getFLOPS, foldl_add_map_sum, Nat.zero_add]
    dsimp only
    rw [hcols]
  · exact hcols

theorem C8_getFLOPS_formula_witness :
    fcConstruct [⟨[3, 10], CV32F, List.replicate 30 (0 : ℚ)⟩] 3 false 1 =
      .ok ((fcConstruct [⟨[3, 10], CV32F, List.replicate 30 (0 : ℚ)⟩] 3 false 1).toOption.getD
        ⟨0, false, 0, ⟨0, 0, 0, 0, []⟩, ⟨0, 0, 0, 0, []⟩⟩) ∧
    (getFLOPS ((fcConstruct [⟨[3, 10], CV32F, List.replicate 30 (0 : ℚ)⟩] 3
          false 1).toOption.getD
        ⟨0, false, 0, ⟨0, 0, 0, 0, []⟩, ⟨0, 0, 0, 0, []⟩⟩) [[2, 3]] =
      (([[2, 3]] : List (List Nat)).map (fun s =>
        3 * ((([⟨[3, 10], CV32F, List.replicate 30 (0 : ℚ)⟩] :
          List TensorQ).getD 0 emptyTensor).total / 3) * s.prod)).sum ∧
    ((fcConstruct [⟨[3, 10], CV32F, List.replicate 30 (0 : ℚ)⟩] 3 false 1).toOption.getD
        ⟨0, false, 0, ⟨0, 0, 0, 0, []⟩, ⟨0, 0, 0, 0, []⟩⟩).weightsMat.cols =
      (([⟨[3, 10], CV32F, List.replicate 30 (0 : ℚ)⟩] :
        List TensorQ).getD 0 emptyTensor).total / 3) :=
  ⟨rfl, C8_getFLOPS_formula [⟨[3, 10], CV32F, List.replicate 30 (0 : ℚ)⟩] 3 false 1 _
    [[2, 3]] rfl⟩

/-! ## Forward loop error behavior -/

/-- C5 (counterexample): the claim requires that on any precondition
violation in the batch no output buffer at all has been written.  With a
two-matrix batch whose second input has the wrong column count, the first
output buffer is fully computed (it changes from `[0]` to `[2]`) before the
error for the second matrix is raised. -/
theorem C5_counterexample_partial_write :
    forward ⟨1, false, 1, ⟨1, 1, 1, CV32F, [[1]]⟩, ⟨1, 1, 1, CV32F, [[0]]⟩⟩ 1
        [⟨[1, 1], CV32F, [2]⟩, ⟨[1, 2], CV32F, [0, 0]⟩]
        [⟨[1, 1], CV32F, [0]⟩, ⟨[1, 1], CV32F, [0]⟩] =
      .error (.assert, [⟨[1, 1], CV32F, [2]⟩, ⟨[1, 1], CV32F, [0]⟩]) ∧
    [(⟨[1, 1], CV32F, [2]⟩ : TensorQ), ⟨[1, 1], CV32F, [0]⟩] ≠
      [⟨[1, 1], CV32F, [0]⟩, ⟨[1, 1], CV32F, [0]⟩] := by
  constructor
  · have hr1 : List.range 1 = [0] := rfl
    norm_num [forward, forwardFrom, forwardStep, TensorQ.reshape2D, TensorQ.total,
      chunkRows, fcCheck, MatQ.total, CV32F, outerSizeOf, fcRun, fcStripe, stripeSize,
      stripeStart, stripeEnd, runFrom, runFromAux, runNw, runDelta, writeRun, scalarDot,
      MatQ.setCell, MatQ.cell, emptyTensor, hr1]
  · intro hc
    have h2 : (⟨[1, 1], CV32F, [2]⟩ : TensorQ) = ⟨[1, 1], CV32F, [0]⟩ :=
      List.head_eq_of_cons_eq hc
    have h3 : ([2] : List ℚ) = [0] := congrArg TensorQ.data h2
    have h4 : (2 : ℚ) = 0 := List.head_eq_of_cons_eq h3
    norm_num at h4

/-- C5 (amended): validation is per matrix, not per batch: when the forward
loop stops with an error, there is a failing batch index `k` whose shape
check failed; the output buffers at index `k` and beyond are exactly the
caller's original buffers (no cell of the failing or later matrices is
written), while the buffers before `k` hold the fully computed results of
their successful steps. -/
theorem C5_failfast_per_matrix (wm bm : MatQ) (nstripes outerSize : Nat) :
    ∀ (inputs outputs : List TensorQ) (e : FCErr) (outs' : List TensorQ),
      inputs.length = outputs.length →
      forwardFrom wm bm nstripes outerSize inputs outputs = .error (e, outs') →
      ∃ k, k < outputs.length ∧
        forwardStep wm bm nstripes outerSize (inputs.getD k emptyTensor)
          (outputs.getD k emptyTensor) = .error e ∧
        (∀ j, k ≤ j → outs'.getD j emptyTensor = outputs.getD j emptyTensor) ∧
        (∀ j, j < k →
          forwardStep wm bm nstripes outerSize (inputs.getD j emptyTensor)
            (outputs.getD j emptyTensor) = .ok (outs'.getD j emptyTensor)) := by
  intro inputs
  induction inputs with
  | nil =>
    intro outputs e outs' hlen hE
    exact absurd hE (by rw [forwardFrom]; simp)
  | cons inp ins ih =>
    intro outputs e outs' hlen hE
    cases outputs with
    | nil => exact absurd hlen (by simp)
    | cons out outs =>
      rw [forwardFrom] at hE
      rcases hs : forwardStep wm bm nstripes outerSize inp out with e' | out' <;>
        rw [hs] at hE
      · obtain ⟨he, houts⟩ := Prod.mk.inj (Except.error.inj hE)
        subst he
        subst houts
        refine ⟨0, by simp, by simpa using hs, fun j _ => rfl, fun j hj => by omega⟩
      · rcases hrest : forwardFrom wm bm nstripes outerSize ins outs with ⟨e', rest⟩ | rest <;>
          rw [hrest] at hE
        · obtain ⟨he, houts⟩ := Prod.mk.inj (Except.error.inj hE)
          subst he
          subst houts
          obtain ⟨k, hk, hkstep, hkout, hkpre⟩ :=
            ih outs _ rest (by simpa using hlen) hrest
          refine ⟨k + 1, by simpa using hk, by simpa using hkstep, ?_, ?_⟩
          · intro j hj
            cases j with
            | zero => omega
            | succ j' =>
              rw [List.getD_cons_succ, List.getD_cons_succ]
              exact hkout j' (by omega)
          · intro j hj
            cases j with
            | zero => simpa using hs
            | succ j' =>
              rw [List.getD_cons_succ, List.getD_cons_succ, List.getD_cons_succ]
              exact hkpre j' (by omega)
        · exact absurd hE (by simp)

theorem C5_failfast_per_matrix_witness :
    (([(⟨[1, 1], CV32F, [2]⟩ : TensorQ), ⟨[1, 2], CV32F, [0, 0]⟩].length =
        [(⟨[1, 1], CV32F, [0]⟩ : TensorQ), ⟨[1, 1], CV32F, [0]⟩].length) ∧
      forwardFrom ⟨1, 1, 1, CV32F, [[1]]⟩ ⟨1, 1, 1, CV32F, [[0]]⟩ 1 1
          [⟨[1, 1], CV32F, [2]⟩, ⟨[1, 2], CV32F, [0, 0]⟩]
          [⟨[1, 1], CV32F, [0]⟩, ⟨[1, 1], CV32F, [0]⟩] =
        .error (.assert, [⟨[1, 1], CV32F, [2]⟩, ⟨[1, 1], CV32F, [0]⟩])) ∧
    ∃ k, k < [(⟨[1, 1], CV32F, [0]⟩ : TensorQ), ⟨[1, 1], CV32F, [0]⟩].length ∧
      forwardStep ⟨1, 1, 1, CV32F, [[1]]⟩ ⟨1, 1, 1, CV32F, [[0]]⟩ 1 1
        ([(⟨[1, 1], CV32F, [2]⟩ : TensorQ), ⟨[1, 2], CV32F, [0, 0]⟩].getD k emptyTensor)
        ([(⟨[1, 1], CV32F, [0]⟩ : TensorQ), ⟨[1, 1], CV32F, [0]⟩].getD k emptyTensor) =
          .error .assert ∧
      (∀ j, k ≤ j →
        ([(⟨[1, 1], CV32F, [2]⟩ : TensorQ), ⟨[1, 1], CV32F, [0]⟩].getD j emptyTensor =
          [(⟨[1, 1], CV32F, [0]⟩ : TensorQ), ⟨[1, 1], CV32F, [0]⟩].getD j emptyTensor)) ∧
      (∀ j, j < k →
        forwardStep ⟨1, 1, 1, CV32F, [[1]]⟩ ⟨1, 1, 1, CV32F, [[0]]⟩ 1 1
          ([(⟨[1, 1], CV32F, [2]⟩ : TensorQ), ⟨[1, 2], CV32F, [0, 0]⟩].getD j emptyTensor)
          ([(⟨[1, 1], CV32F, [0]⟩ : TensorQ), ⟨[1, 1], CV32F, [0]⟩].getD j emptyTensor) =
            .ok ([(⟨[1, 1], CV32F, [2]⟩ : TensorQ),
              ⟨[1, 1], CV32F, [0]⟩].getD j emptyTensor)) := by
  have hF : forwardFrom ⟨1, 1, 1, CV32F, [[1]]⟩ ⟨1, 1, 1, CV32F, [[0]]⟩ 1 1
      [⟨[1, 1], CV32F, [2]⟩, ⟨[1, 2], CV32F, [0, 0]⟩]
      [⟨[1, 1], CV32F, [0]⟩, ⟨[1, 1], CV32F, [0]⟩] =
      .error (.assert, [⟨[1, 1], CV32F, [2]⟩, ⟨[1, 1], CV32F, [0]⟩]) := by
    have hr1 : List.range 1 = [0] := rfl
    norm_num [forwardFrom, forwardStep, TensorQ.reshape2D, TensorQ.total,
      chunkRows, fcCheck, MatQ.total, CV32F, outerSizeOf, fcRun, fcStripe, stripeSize,
      stripeStart, stripeEnd, runFrom, runFromAux, runNw, runDelta, writeRun, scalarDot,
      MatQ.setCell, MatQ.cell, emptyTensor, hr1]
  exact ⟨⟨rfl, hF⟩,
    C5_failfast_per_matrix ⟨1, 1, 1, CV32F, [[1]]⟩ ⟨1, 1, 1, CV32F, [[0]]⟩ 1 1
      [⟨[1, 1], CV32F, [2]⟩, ⟨[1, 2], CV32F, [0, 0]⟩]
      [⟨[1, 1], CV32F, [0]⟩, ⟨[1, 1], CV32F, [0]⟩] .assert
      [⟨[1, 1], CV32F, [2]⟩, ⟨[1, 1], CV32F, [0]⟩] rfl hF⟩

theorem reshape2D_rows (t : TensorQ) (n : Nat) (m : MatQ) (h : t.reshape2D n = some m) :
    m.rows = n := by
  rw [TensorQ.reshape2D] at h
  split_ifs at h with hg
  rw [← Option.some.inj h]

theorem getD_replicate_mem {α : Type} (n j : Nat) (a d : α) (hj : j < n) :
    (List.replicate n a).getD j d = a := by
  rw [List.getD_eq_getElem _ _ (by simpa using hj), List.getElem_replicate]

/-- A successful forward pass reshaped every input in the batch — including
those after the first — to the row count derived from `input[0]`. -/
theorem forwardFrom_ok_reshape (wm bm : MatQ) (n os : Nat) :
    ∀ (ins outs res : List TensorQ),
      forwardFrom wm bm n os ins outs = .ok res →
      ∀ i, i < ins.length → ∃ m, (ins.getD i emptyTensor).reshape2D os = some m := by
  intro ins
  induction ins with
  | nil =>
    intro outs res h i hi
    exact absurd hi (by simp)
  | cons inp tl ih =>
    intro outs res h i hi
    cases outs with
    | nil => rw [forwardFrom] at h; exact absurd h (by simp)
    | cons out outs' =>
      rw [forwardFrom] at h
      rcases hs : forwardStep wm bm n os inp out with e' | o' <;> rw [hs] at h
      · exact absurd h (by simp)
      · rcases hr : forwardFrom wm bm n os tl outs' with ⟨e2, r2⟩ | r2 <;> rw [hr] at h
        · exact absurd h (by simp)
        · cases i with
          | zero =>
            rcases h1 : inp.reshape2D os with - | m
            · rw [forwardStep, h1] at hs
              exact absurd hs (by simp)
            · exact ⟨m, by simpa using h1⟩
          | succ i' =>
            rw [List.getD_cons_succ]
            exact ih outs' r2 hr i' (by simpa using hi)

/-- C10 (implicit): both shape inference and the forward pass derive the
batch row count `outerSize` from `inputs[0]` alone and apply it uniformly:
`getMemoryShapes` assigns every output the shape
`[outerSize(inputs[0]), numOutput]` regardless of the other inputs, and a
successful `forward` has reshaped every input matrix — including `i > 0` —
to `outerSize(input[0])` rows. -/
theorem C10_outer_size_from_first_input (L : FCLayer) :
    (∀ (shapes : List (List Nat)) (res : List (List Nat)),
      getMemoryShapes L shapes = .ok res →
      ∀ j, j < shapes.length →
        res.getD j [] = [outerSizeOf (shapes.getD 0 []) L.axis, L.weightsMat.rows]) ∧
    (∀ (nstripes : Nat) (inputs outputs res : List TensorQ),
      forward L nstripes inputs outputs = .ok res →
      ∀ i, i < inputs.length →
        ∃ m : MatQ, (inputs.getD i emptyTensor).reshape2D
            (outerSizeOf (inputs.getD 0 emptyTensor).shape L.axis) = some m ∧
          m.rows = outerSizeOf (inputs.getD 0 emptyTensor).shape L.axis) := by
  constructor
  · intro shapes res h j hj
    rw [getMemoryShapes] at h
    split_ifs at h with h1 h2
    have hres := Except.ok.inj h
    rw [← hres, getD_replicate_mem _ _ _ _ hj]
  · intro nstripes inputs outputs res h i hi
    rw [forward] at h
    obtain ⟨m, hm⟩ := forwardFrom_ok_reshape L.weightsMat L.biasMat nstripes
      (outerSizeOf (inputs.getD 0 emptyTensor).shape L.axis) inputs outputs res h i hi
    exact ⟨m, hm, reshape2D_rows _ _ _ hm⟩

theorem C10_outer_size_from_first_input_witness :
    (∀ (shapes : List (List Nat)) (res : List (List Nat)),
      getMemoryShapes ⟨3, false, 1, ⟨3, 2, 2, CV32F, [[1, 0], [0, 1], [1, 1]]⟩,
        ⟨1, 3, 3, CV32F, [[0, 0, 0]]⟩⟩ shapes = .ok res →
      ∀ j, j < shapes.length →
        res.getD j [] = [outerSizeOf (shapes.getD 0 [])
          (⟨3, false, 1, ⟨3, 2, 2, CV32F, [[1, 0], [0, 1], [1, 1]]⟩,
            ⟨1, 3, 3, CV32F, [[0, 0, 0]]⟩⟩ : FCLayer).axis,
          (⟨3, false, 1, ⟨3, 2, 2, CV32F, [[1, 0], [0, 1], [1, 1]]⟩,
            ⟨1, 3, 3, CV32F, [[0, 0, 0]]⟩⟩ : FCLayer).weightsMat.rows]) ∧
    (∀ (nstripes : Nat) (inputs outputs res : List TensorQ),
      forward ⟨3, false, 1, ⟨3, 2, 2, CV32F, [[1, 0], [0, 1], [1, 1]]⟩,
        ⟨1, 3, 3, CV32F, [[0, 0, 0]]⟩⟩ nstripes inputs outputs = .ok res →
      ∀ i, i < inputs.length →
        ∃ m : MatQ, (inputs.getD i emptyTensor).reshape2D
            (outerSizeOf (inputs.getD 0 emptyTensor).shape
              (⟨3, false, 1, ⟨3, 2, 2, CV32F, [[1, 0], [0, 1], [1, 1]]⟩,
                ⟨1, 3, 3, CV32F, [[0, 0, 0]]⟩⟩ : FCLayer).axis) = some m ∧
          m.rows = outerSizeOf (inputs.getD 0 emptyTensor).shape
            (⟨3, false, 1, ⟨3, 2, 2, CV32F, [[1, 0], [0, 1], [1, 1]]⟩,
              ⟨1, 3, 3, CV32F, [[0, 0, 0]]⟩⟩ : FCLayer).axis) :=
  C10_outer_size_from_first_input ⟨3, false, 1, ⟨3, 2, 2, CV32F, [[1, 0], [0, 1], [1, 1]]⟩,
    ⟨1, 3, 3, CV32F, [[0, 0, 0]]⟩⟩

/-! ## The 4-wide vectorized path -/

theorem loop_components (s w0 w1 w2 w3 : Nat → ℚ) :
    ∀ (l : List Nat) (i0 i1 i2 i3 : V4),
      l.foldl (fun vs t =>
        let v := v4load s (4 * t)
        (vs.1.add (v.mul (v4load w0 (4 * t))),
         vs.2.1.add (v.mul (v4load w1 (4 * t))),
         vs.2.2.1.add (v.mul (v4load w2 (4 * t))),
         vs.2.2.2.add (v.mul (v4load w3 (4 * t))))) (i0, i1, i2, i3) =
      (l.foldl (fun v t => v.add ((v4load s (4 * t)).mul (v4load w0 (4 * t)))) i0,
       l.foldl (fun v t => v.add ((v4load s (4 * t)).mul (v4load w1 (4 * t)))) i1,
       l.foldl (fun v t => v.add ((v4load s (4 * t)).mul (v4load w2 (4 * t)))) i2,
       l.foldl (fun v t => v.add ((v4load s (4 * t)).mul (v4load w3 (4 * t)))) i3) := by
  intro l
  induction l with
  | nil => intro i0 i1 i2 i3; rfl
  | cons x xs ih =>
    intro i0 i1 i2 i3
    simp only [List.foldl_cons]
    exact ih _ _ _ _

theorem accum_lanes (s w : Nat → ℚ) (n : Nat) (init : V4) :
    (List.range n).foldl (fun v t => v.add ((v4load s (4 * t)).mul (v4load w (4 * t)))) init =
      ⟨init.e0 + ∑ t ∈ Finset.range n, s (4 * t) * w (4 * t),
       init.e1 + ∑ t ∈ Finset.range n, s (4 * t + 1) * w (4 * t + 1),
       init.e2 + ∑ t ∈ Finset.range n, s (4 * t + 2) * w (4 * t + 2),
       init.e3 + ∑ t ∈ Finset.range n, s (4 * t + 3) * w (4 * t + 3)⟩ := by
  induction n with
  | zero => simp
  | succ m ih =>
    rw [List.range_succ, List.foldl_append, List.foldl_cons, List.foldl_nil, ih]
    simp only [V4.add, V4.mul, v4load, Finset.sum_range_succ]
    congr 1 <;> ring

theorem sum4_chunks (f : Nat → ℚ) (n : Nat) :
    ∑ t ∈ Finset.range n, (f (4 * t) + f (4 * t + 1) + f (4 * t + 2) + f (4 * t + 3)) =
      ∑ k ∈ Finset.range (4 * n), f k := by
  induction n with
  | zero => simp
  | succ m ih =>
    rw [Finset.sum_range_succ, ih]
    have h4 : 4 * (m + 1) = 4 * m + 1 + 1 + 1 + 1 := by ring
    rw [h4, Finset.sum_range_succ, Finset.sum_range_succ, Finset.sum_range_succ,
      Finset.sum_range_succ]
    ring

theorem scalarDotF_eq_sum (s w : Nat → ℚ) (n : Nat) (init : ℚ) :
    scalarDotF s w n init = init + ∑ k ∈ Finset.range n, s k * w k := by
  induction n with
  | zero => simp [scalarDotF]
  | succ m ih =>
    unfold scalarDotF at ih ⊢
    rw [List.range_succ, List.foldl_append, ih, Finset.sum_range_succ]
    simp [add_assoc]

theorem sum_truncate_zero (s w : Nat → ℚ) (n m : Nat) (hnm : n ≤ m)
    (hz : ∀ k, n ≤ k → w k = 0) :
    ∑ k ∈ Finset.range m, s k * w k = ∑ k ∈ Finset.range n, s k * w k := by
  rw [← Finset.sum_range_add_sum_Ico _ hnm]
  have hzero : ∑ k ∈ Finset.Ico n m, s k * w k = 0 :=
    Finset.sum_eq_zero fun k hk => by rw [hz k (Finset.mem_Ico.mp hk).1, mul_zero]
  rw [hzero, add_zero]

/-- C9: the 4-wide vectorized path (four weight rows at a time, 4-element
chunks over the padded width `4*⌈vecsize/4⌉`, four bias values added in one
vector operation) and the fully scalar fallback path compute the same value
for every output cell in exact arithmetic, for arbitrary memory contents
past the logical row end, provided the padding columns of the weight rows
are zero; and the scalar fallback on lists is the same function as the
scalar path on the memory view. -/
theorem C9_simd_scalar_equiv (s w0 w1 w2 w3 : Nat → ℚ) (b0 b1 b2 b3 : ℚ) (vecsize : Nat)
    (hz0 : ∀ k, vecsize ≤ k → w0 k = 0) (hz1 : ∀ k, vecsize ≤ k → w1 k = 0)
    (hz2 : ∀ k, vecsize ≤ k → w2 k = 0) (hz3 : ∀ k, vecsize ≤ k → w3 k = 0) :
    fourRowBlock s w0 w1 w2 w3 ⟨b0, b1, b2, b3⟩ vecsize =
      ⟨scalarDotF s w0 vecsize b0, scalarDotF s w1 vecsize b1,
       scalarDotF s w2 vecsize b2, scalarDotF s w3 vecsize b3⟩ ∧
    (∀ (sp wp : List ℚ) (n : Nat) (init : ℚ),
      scalarDot sp wp n init =
        scalarDotF (fun k => sp.getD k 0) (fun k => wp.getD k 0) n init) := by
  constructor
  · have hceil : vecsize ≤ 4 * ((vecsize + 3) / 4) := by omega
    rw [fourRowBlock, fourRowLoop, loop_components,
      accum_lanes, accum_lanes, accum_lanes, accum_lanes]
    simp only [v4reduceSum4, V4.add, V4.zero]
    have key : ∀ w : Nat → ℚ, (∀ k, vecsize ≤ k → w k = 0) → ∀ b : ℚ,
        0 + ∑ t ∈ Finset.range ((vecsize + 3) / 4), s (4 * t) * w (4 * t) +
          (0 + ∑ t ∈ Finset.range ((vecsize + 3) / 4), s (4 * t + 1) * w (4 * t + 1)) +
          (0 + ∑ t ∈ Finset.range ((vecsize + 3) / 4), s (4 * t + 2) * w (4 * t + 2)) +
          (0 + ∑ t ∈ Finset.range ((vecsize + 3) / 4), s (4 * t + 3) * w (4 * t + 3)) + b =
          scalarDotF s w vecsize b := by
      intro w hz b
      have hsum : ∑ t ∈ Finset.range ((vecsize + 3) / 4),
          (s (4 * t) * w (4 * t) + s (4 * t + 1) * w (4 * t + 1) +
            s (4 * t + 2) * w (4 * t + 2) + s (4 * t + 3) * w (4 * t + 3)) =
          ∑ k ∈ Finset.range (4 * ((vecsize + 3) / 4)), s k * w k :=
        sum4_chunks (fun k => s k * w k) _
      rw [scalarDotF_eq_sum, ← sum_truncate_zero s w vecsize _ hceil hz, ← hsum,
        Finset.sum_add_distrib, Finset.sum_add_distrib, Finset.sum_add_distrib]
      ring
    rw [key w0 hz0 b0, key w1 hz1 b1, key w2 hz2 b2, key w3 hz3 b3]
  · intro sp wp n init
    rfl

theorem C9_simd_scalar_equiv_witness :
    ((∀ k, 2 ≤ k → (fun j => if j < 2 then (1 : ℚ) else 0) k = 0) ∧
     (∀ k, 2 ≤ k → (fun j => if j < 2 then (2 : ℚ) else 0) k = 0) ∧
     (∀ k, 2 ≤ k → (fun j => if j < 2 then (3 : ℚ) else 0) k = 0) ∧
     (∀ k, 2 ≤ k → (fun j => if j < 2 then (4 : ℚ) else 0) k = 0)) ∧
    (fourRowBlock (fun k => (k : ℚ) + 1) (fun j => if j < 2 then (1 : ℚ) else 0)
        (fun j => if j < 2 then (2 : ℚ) else 0) (fun j => if j < 2 then (3 : ℚ) else 0)
        (fun j => if j < 2 then (4 : ℚ) else 0) ⟨5, 6, 7, 8⟩ 2 =
      ⟨scalarDotF (fun k => (k : ℚ) + 1) (fun j => if j < 2 then (1 : ℚ) else 0) 2 5,
       scalarDotF (fun k => (k : ℚ) + 1) (fun j => if j < 2 then (2 : ℚ) else 0) 2 6,
       scalarDotF (fun k => (k : ℚ) + 1) (fun j => if j < 2 then (3 : ℚ) else 0) 2 7,
       scalarDotF (fun k => (k : ℚ) + 1) (fun j => if j < 2 then (4 : ℚ) else 0) 2 8⟩ ∧
    (∀ (sp wp : List ℚ) (n : Nat) (init : ℚ),
      scalarDot sp wp n init =
        scalarDotF (fun k => sp.getD k 0) (fun k => wp.getD k 0) n init)) :=
  ⟨⟨fun k hk => by simp [Nat.not_lt.mpr hk], fun k hk => by simp [Nat.not_lt.mpr hk],
    fun k hk => by simp [Nat.not_lt.mpr hk], fun k hk => by simp [Nat.not_lt.mpr hk]⟩,
    C9_simd_scalar_equiv (fun k => (k : ℚ) + 1) (fun j => if j < 2 then (1 : ℚ) else 0)
      (fun j => if j < 2 then (2 : ℚ) else 0) (fun j => if j < 2 then (3 : ℚ) else 0)
      (fun j => if j < 2 then (4 : ℚ) else 0) 5 6 7 8 2
      (fun k hk => by simp [Nat.not_lt.mpr hk]) (fun k hk => by simp [Nat.not_lt.mpr hk])
      (fun k hk => by simp [Nat.not_lt.mpr hk]) (fun k hk => by simp [Nat.not_lt.mpr hk])⟩
